import Mathlib

/-!
Verification of the waitlist promotion and capacity-reconciliation engine of the
furikaeyoyaku (swim-school makeup lesson) system.

The definitions below are a shallow embedding of the server code:
`server/routes.ts` (the HTTP handlers and the `confirmNextWaiter` promotion
loop) and `server/scheduler.ts` (the expiry sweeper).  The Prisma database is
modelled as explicit lists of rows; `findUnique` / `findFirst` become
`List.find?`, and `update where id` becomes a map over the list that rewrites
every row with the matching id.  Timestamps are integers (seconds); an hour is
3600.  The cuid identifiers produced by `createId()` are modelled by a
monotone counter `nextId` in the database state — each call returns a fresh
value.  Japanese status strings are rendered as inductive types:
確定 = confirmed, 待ち = waiting, 却下 = declined, 期限切れ = expired.
Only the fields that the server code reads or writes are carried.
-/

namespace Furikae

/-- Class band (初級 / 中級 / 上級). -/
inductive ClassBand
  | beginner
  | intermediate
  | advanced
deriving DecidableEq, Repr

/-- Status of a makeup request (確定 / 待ち / 却下 / 期限切れ). -/
inductive RequestStatus
  | confirmed
  | waiting
  | declined
  | expired
deriving DecidableEq, Repr

/-- Status of an absence notice (`makeupStatus` column). -/
inductive NoticeStatus
  | absentLogged
  | waiting
  | makeupConfirmed
  | expired
  | cancelled
deriving DecidableEq, Repr

/-- One row of the `ClassSlot` table. -/
structure ClassSlot where
  id : Nat
  classBand : ClassBand
  courseLabel : String
  startTime : String
  capacityLimit : Int
  capacityCurrent : Int
  capacityMakeupAllowed : Int
  capacityMakeupUsed : Int
  waitlistCount : Int
  lessonStartDateTime : Int
  lastNotifiedRequestId : Option Nat
deriving DecidableEq, Repr

/-- One row of the `Request` table. -/
structure Request where
  id : Nat
  childName : String
  declaredClassBand : ClassBand
  absentDate : Int
  toSlotId : Nat
  status : RequestStatus
  contactEmail : Option String
  confirmToken : Option Nat
  declineToken : Option Nat
  toSlotStartDateTime : Int
  createdAt : Int
  absenceNoticeId : Option Nat
deriving DecidableEq, Repr

/-- One row of the `AbsenceNotice` table (the fields the server code touches). -/
structure AbsenceNotice where
  id : Nat
  makeupDeadline : Int
  makeupStatus : NoticeStatus
  makeupSlotId : Option Nat
deriving DecidableEq, Repr

/-- An outbound email recorded by the notification sink
(`sendConfirmationEmail` / `sendExpiredEmail`). -/
inductive Email
  | confirmation (recipient : String) (childName : String) (courseLabel : String)
      (startTime : String) (band : ClassBand) (declineToken : Nat)
  | expiredNote (recipient : String) (childName : String) (courseLabel : String)
      (startTime : String) (band : ClassBand)
deriving DecidableEq, Repr

/-- The database state plus the log of sent emails and the id supply. -/
structure Db where
  slots : List ClassSlot
  requests : List Request
  notices : List AbsenceNotice
  sentEmails : List Email
  nextId : Nat
deriving DecidableEq, Repr

/-- `prisma.classSlot.findUnique({ where: { id } })`. -/
def findSlot (db : Db) (sid : Nat) : Option ClassSlot :=
  db.slots.find? (fun s => s.id == sid)

/-- `prisma.request.findUnique({ where: { id } })`. -/
def findRequest (db : Db) (rid : Nat) : Option Request :=
  db.requests.find? (fun r => r.id == rid)

/-- `prisma.absenceNotice.findUnique({ where: { id } })`. -/
def findNotice (db : Db) (nid : Nat) : Option AbsenceNotice :=
  db.notices.find? (fun n => n.id == nid)

/-- `prisma.classSlot.update({ where: { id }, data })`: rewrite the rows with
the given id. -/
def updateSlot (db : Db) (sid : Nat) (f : ClassSlot → ClassSlot) : Db :=
  { db with slots := db.slots.map (fun s => if s.id == sid then f s else s) }

/-- `prisma.request.update({ where: { id }, data })`. -/
def updateRequest (db : Db) (rid : Nat) (f : Request → Request) : Db :=
  { db with requests := db.requests.map (fun r => if r.id == rid then f r else r) }

/-- `prisma.absenceNotice.update({ where: { id }, data })`. -/
def updateNotice (db : Db) (nid : Nat) (f : AbsenceNotice → AbsenceNotice) : Db :=
  { db with notices := db.notices.map (fun n => if n.id == nid then f n else n) }

/-- The predicate of the promotion query
`findMany({ where: { toSlotId, status: "待ち" } })`. -/
def isWaitingFor (sid : Nat) (r : Request) : Bool :=
  r.toSlotId == sid && decide (r.status = RequestStatus.waiting)

/-- All WAITING requests targeting a slot, in table order. -/
def waitingFor (db : Db) (sid : Nat) : List Request :=
  db.requests.filter (isWaitingFor sid)

/-- Pick the earlier-created of two requests (ties keep the first argument,
matching a stable `orderBy createdAt asc`). -/
def olderOf (a b : Request) : Request :=
  if b.createdAt < a.createdAt then b else a

/-- `findMany({ where: { toSlotId, status: "待ち" }, orderBy: { createdAt: "asc" },
take: 1 })`: the first-created waiting request for the slot. -/
def oldestWaiting (db : Db) (sid : Nat) : Option Request :=
  match waitingFor db sid with
  | [] => none
  | r :: rs => some (rs.foldl olderOf r)

/-- One iteration body of `confirmNextWaiter`: confirm the chosen waiter, store
a fresh decline token, increment `capacityMakeupUsed`, decrement
`waitlistCount`, and send the confirmation email when a contact address is on
file. -/
def promoteRequest (db : Db) (slot : ClassSlot) (req : Request) : Db :=
  let declineToken := db.nextId
  let db1 : Db := { db with nextId := db.nextId + 1 }
  let db2 := updateRequest db1 req.id (fun r =>
    { r with status := RequestStatus.confirmed, declineToken := some declineToken })
  let db3 := updateSlot db2 slot.id (fun s =>
    { s with capacityMakeupUsed := s.capacityMakeupUsed + 1,
             waitlistCount := s.waitlistCount - 1 })
  match req.contactEmail with
  | some addr =>
      { db3 with sentEmails := db3.sentEmails ++
          [Email.confirmation addr req.childName slot.courseLabel slot.startTime
            slot.classBand declineToken] }
  | none => db3

/-- The `while (true)` loop of `confirmNextWaiter`, with explicit fuel.  Each
continuing iteration increments `capacityMakeupUsed` and leaves
`capacityMakeupAllowed` alone, so remaining capacity strictly decreases; fuel
equal to the remaining capacity at entry makes the fuelled loop agree with the
unbounded one (`confirmLoop_fuel_stable` below).  Besides the final state it
returns the trace of promoted requests, in promotion order. -/
def confirmLoop : Nat → Db → Nat → Db × List Request
  | 0, db, _ => (db, [])
  | fuel + 1, db, sid =>
    match findSlot db sid with
    | none => (db, [])
    | some slot =>
      if slot.capacityMakeupAllowed - slot.capacityMakeupUsed < 1 then (db, [])
      else
        match oldestWaiting db sid with
        | none => (db, [])
        | some nextRequest =>
          let db4 := promoteRequest db slot nextRequest
          let rec2 := confirmLoop fuel db4 sid
          (rec2.1, nextRequest :: rec2.2)

/-- Remaining makeup capacity of a slot, clamped at zero (the fuel budget of
the promotion loop). -/
def slotRemainingFuel (db : Db) (sid : Nat) : Nat :=
  match findSlot db sid with
  | none => 0
  | some slot => (slot.capacityMakeupAllowed - slot.capacityMakeupUsed).toNat

/-- `confirmNextWaiter(slotId)` from `server/routes.ts`. -/
def confirmNextWaiter (db : Db) (sid : Nat) : Db × List Request :=
  confirmLoop (slotRemainingFuel db sid) db sid

/-- Outcome of `POST /api/book`. -/
inductive BookOutcome
  | slotNotFound
  | bandMismatch
  | noCapacity
  | booked
deriving DecidableEq, Repr

/-- `POST /api/book`: immediate booking.  `now` is the database clock used for
the created row's `createdAt`. -/
def book (db : Db) (now : Int) (childName : String) (declaredClassBand : ClassBand)
    (absentDate : Int) (toSlotId : Nat) : Db × BookOutcome :=
  match findSlot db toSlotId with
  | none => (db, BookOutcome.slotNotFound)
  | some slot =>
    if slot.classBand ≠ declaredClassBand then (db, BookOutcome.bandMismatch)
    else if slot.capacityMakeupAllowed - slot.capacityMakeupUsed < 1 then
      (db, BookOutcome.noCapacity)
    else
      let req : Request :=
        { id := db.nextId, childName := childName,
          declaredClassBand := declaredClassBand, absentDate := absentDate,
          toSlotId := toSlotId, status := RequestStatus.confirmed,
          contactEmail := none, confirmToken := none, declineToken := none,
          toSlotStartDateTime := slot.lessonStartDateTime, createdAt := now,
          absenceNoticeId := none }
      let db1 : Db := { db with requests := db.requests ++ [req],
                                nextId := db.nextId + 1 }
      let db2 := updateSlot db1 toSlotId (fun s =>
        { s with capacityMakeupUsed := s.capacityMakeupUsed + 1 })
      (db2, BookOutcome.booked)

/-- Outcome of `POST /api/waitlist`. -/
inductive WaitlistOutcome
  | slotNotFound
  | bandMismatch
  | joined
deriving DecidableEq, Repr

/-- `POST /api/waitlist`: join the waitlist (no capacity check in the code). -/
def joinWaitlist (db : Db) (now : Int) (childName : String)
    (declaredClassBand : ClassBand) (absentDate : Int) (toSlotId : Nat)
    (contactEmail : String) : Db × WaitlistOutcome :=
  match findSlot db toSlotId with
  | none => (db, WaitlistOutcome.slotNotFound)
  | some slot =>
    if slot.classBand ≠ declaredClassBand then (db, WaitlistOutcome.bandMismatch)
    else
      let req : Request :=
        { id := db.nextId, childName := childName,
          declaredClassBand := declaredClassBand, absentDate := absentDate,
          toSlotId := toSlotId, status := RequestStatus.waiting,
          contactEmail := some contactEmail, confirmToken := none,
          declineToken := none,
          toSlotStartDateTime := slot.lessonStartDateTime, createdAt := now,
          absenceNoticeId := none }
      let db1 : Db := { db with requests := db.requests ++ [req],
                                nextId := db.nextId + 1 }
      let db2 := updateSlot db1 toSlotId (fun s =>
        { s with waitlistCount := s.waitlistCount + 1 })
      (db2, WaitlistOutcome.joined)

/-- Outcome of `GET /api/wait-decline`. -/
inductive DeclineOutcome
  | invalidToken
  | notFound
  | alreadyProcessed
  | declinedOk
deriving DecidableEq, Repr

/-- `GET /api/wait-decline?token=...`: decline a confirmed booking by token,
free one capacity unit, then run the promotion engine synchronously. -/
def declineByToken (db : Db) (token? : Option Nat) : Db × DeclineOutcome :=
  match token? with
  | none => (db, DeclineOutcome.invalidToken)
  | some token =>
    match db.requests.find? (fun r => r.declineToken == some token) with
    | none => (db, DeclineOutcome.notFound)
    | some request =>
      if request.status ≠ RequestStatus.confirmed then
        (db, DeclineOutcome.alreadyProcessed)
      else
        let db1 := updateRequest db request.id (fun r =>
          { r with status := RequestStatus.declined })
        let db2 := updateSlot db1 request.toSlotId (fun s =>
          { s with capacityMakeupUsed := s.capacityMakeupUsed - 1 })
        ((confirmNextWaiter db2 request.toSlotId).1, DeclineOutcome.declinedOk)

/-- Outcome of `POST /admin/update-slot-capacity`. -/
inductive UpdateCapacityOutcome
  | slotNotFound
  | updated
deriving DecidableEq, Repr

/-- `POST /admin/update-slot-capacity`: partial capacity update; fields that
are `none` were absent from the body and are left unchanged.  When remaining
capacity goes from `<= 0` to `>= 1` the promotion engine is invoked inline. -/
def updateSlotCapacity (db : Db) (sid : Nat) (capacityCurrent? : Option Int)
    (capacityMakeupAllowed? : Option Int) (capacityMakeupUsed? : Option Int) :
    Db × UpdateCapacityOutcome :=
  match findSlot db sid with
  | none => (db, UpdateCapacityOutcome.slotNotFound)
  | some slot =>
    let oldRemainingSlots := slot.capacityMakeupAllowed - slot.capacityMakeupUsed
    let db1 := updateSlot db sid (fun s =>
      { s with capacityCurrent := capacityCurrent?.getD s.capacityCurrent,
               capacityMakeupAllowed :=
                 capacityMakeupAllowed?.getD s.capacityMakeupAllowed,
               capacityMakeupUsed := capacityMakeupUsed?.getD s.capacityMakeupUsed })
    match findSlot db1 sid with
    | none => (db1, UpdateCapacityOutcome.updated)
    | some updatedSlot =>
      let newRemainingSlots :=
        updatedSlot.capacityMakeupAllowed - updatedSlot.capacityMakeupUsed
      if oldRemainingSlots ≤ 0 ∧ 1 ≤ newRemainingSlots then
        ((confirmNextWaiter db1 sid).1, UpdateCapacityOutcome.updated)
      else (db1, UpdateCapacityOutcome.updated)

/-- Outcome of `POST /admin/close-waitlist`. -/
inductive CloseOutcome
  | slotNotFound
  | tooEarly
  | closed
deriving DecidableEq, Repr

/-- Per-request body of the manual close loop: expire the request and send the
"could not accommodate" email when a contact address is on file. -/
def closeOneRequest (slot : ClassSlot) (acc : Db) (request : Request) : Db :=
  let acc1 := updateRequest acc request.id (fun r =>
    { r with status := RequestStatus.expired })
  match request.contactEmail with
  | some addr =>
      { acc1 with sentEmails := acc1.sentEmails ++
          [Email.expiredNote addr request.childName slot.courseLabel
            slot.startTime slot.classBand] }
  | none => acc1

/-- `POST /admin/close-waitlist`: manual close, only permitted within one hour
of lesson start; expires every waiting request of the slot, emails the ones
with a contact address, then zeroes the cached waitlist counter. -/
def closeWaitlist (db : Db) (now : Int) (sid : Nat) : Db × CloseOutcome :=
  match findSlot db sid with
  | none => (db, CloseOutcome.slotNotFound)
  | some slot =>
    if now < slot.lessonStartDateTime - 3600 then (db, CloseOutcome.tooEarly)
    else
      let waitingRequests := db.requests.filter (isWaitingFor sid)
      let db1 := waitingRequests.foldl (closeOneRequest slot) db
      let db2 := updateSlot db1 sid (fun s =>
        { s with waitlistCount := 0, lastNotifiedRequestId := none })
      (db2, CloseOutcome.closed)

/-- `ACTIVE_ABSENCE_STATUSES` from `server/scheduler.ts`. -/
def ACTIVE_ABSENCE_STATUSES : List NoticeStatus :=
  [NoticeStatus.absentLogged, NoticeStatus.waiting, NoticeStatus.cancelled]

/-- The driving query of the sweeper: WAITING requests whose denormalized slot
start time lies in `[now, now + 1 hour]`. -/
def sweepMatched (now : Int) (r : Request) : Bool :=
  decide (r.status = RequestStatus.waiting) &&
    now ≤ r.toSlotStartDateTime && r.toSlotStartDateTime ≤ now + 3600

/-- Helper for `uniqueKeys`: keep each key the first time it is seen. -/
def uniqueKeysAux (seen : List Nat) : List Nat → List Nat
  | [] => []
  | x :: xs =>
    if x ∈ seen then uniqueKeysAux seen xs
    else x :: uniqueKeysAux (x :: seen) xs

/-- First-occurrence deduplication, matching the insertion order of the
`requestsBySlot` record keys built in `server/scheduler.ts`. -/
def uniqueKeys (l : List Nat) : List Nat :=
  uniqueKeysAux [] l

/-- Per-request body of the sweeper's slot-group loop: expire the request,
update its absence notice (EXPIRED past the deadline, otherwise back to
ABSENT_LOGGED, clearing the makeup slot), and send the "could not accommodate"
email when a contact address is on file. -/
def sweepOneRequest (now : Int) (slot : ClassSlot) (acc : Db) (request : Request) :
    Db :=
  let acc1 := updateRequest acc request.id (fun r =>
    { r with status := RequestStatus.expired })
  let acc2 :=
    match request.absenceNoticeId with
    | none => acc1
    | some nid =>
      match findNotice acc1 nid with
      | none => acc1
      | some absence =>
        let nextStatus :=
          if absence.makeupDeadline < now then NoticeStatus.expired
          else NoticeStatus.absentLogged
        updateNotice acc1 nid (fun n =>
          { n with makeupStatus := nextStatus, makeupSlotId := none })
  match request.contactEmail with
  | some addr =>
      { acc2 with sentEmails := acc2.sentEmails ++
          [Email.expiredNote addr request.childName slot.courseLabel
            slot.startTime slot.classBand] }
  | none => acc2

/-- One slot group of the sweeper: look the slot up in the map prefetched at
sweep start (skip the group if absent), expire all its selected requests, then
recount and persist the cached waitlist counter. -/
def sweepGroup (slots0 : List ClassSlot) (now : Int) (acc : Db) (sid : Nat)
    (group : List Request) : Db :=
  match slots0.find? (fun s => s.id == sid) with
  | none => acc
  | some slot =>
    let acc1 := group.foldl (sweepOneRequest now slot) acc
    let remainingWaiters := (acc1.requests.filter (isWaitingFor sid)).length
    updateSlot acc1 sid (fun s =>
      { s with waitlistCount := (remainingWaiters : Int),
               lastNotifiedRequestId := none })

/-- The slot-group phase of the sweeper: select, group by slot, process each
group.  The slot map is prefetched from the state at phase entry. -/
def sweepGroupPass (db : Db) (now : Int) : Db :=
  let expiring := db.requests.filter (sweepMatched now)
  let slotIds := uniqueKeys (expiring.map (fun r => r.toSlotId))
  slotIds.foldl (fun acc sid =>
    sweepGroup db.slots now acc sid (expiring.filter (fun r => r.toSlotId == sid)))
    db

/-- The driving query of the sweeper's second phase: absence notices past their
deadline that are still in an active status. -/
def isActiveExpired (now : Int) (n : AbsenceNotice) : Bool :=
  n.makeupDeadline < now && ACTIVE_ABSENCE_STATUSES.contains n.makeupStatus

/-- Force a notice to EXPIRED and clear its makeup slot. -/
def expireNoticeRow (n : AbsenceNotice) : AbsenceNotice :=
  { n with makeupStatus := NoticeStatus.expired, makeupSlotId := none }

/-- The absence-deadline phase of the sweeper. -/
def sweepAbsencePass (db : Db) (now : Int) : Db :=
  (db.notices.filter (isActiveExpired now)).foldl
    (fun acc n => updateNotice acc n.id expireNoticeRow) db

/-- One tick of the cron job in `server/scheduler.ts`: the waitlist-close
phase followed by the absence-deadline phase. -/
def sweep (db : Db) (now : Int) : Db :=
  sweepAbsencePass (sweepGroupPass db now) now

/-- The operations of the service, used to state properties that hold along
every possible sequence of requests. -/
inductive AppOp
  | opBook (now : Int) (childName : String) (band : ClassBand) (absentDate : Int)
      (sid : Nat)
  | opWaitlist (now : Int) (childName : String) (band : ClassBand)
      (absentDate : Int) (sid : Nat) (contactEmail : String)
  | opDecline (token? : Option Nat)
  | opAdjustCapacity (sid : Nat) (cc : Option Int) (ca : Option Int)
      (cu : Option Int)
  | opCloseWaitlist (now : Int) (sid : Nat)
  | opSweep (now : Int)
deriving DecidableEq, Repr

/-- Apply one operation to the database state. -/
def applyOp (db : Db) : AppOp → Db
  | AppOp.opBook now childName band absentDate sid =>
      (book db now childName band absentDate sid).1
  | AppOp.opWaitlist now childName band absentDate sid contactEmail =>
      (joinWaitlist db now childName band absentDate sid contactEmail).1
  | AppOp.opDecline token? => (declineByToken db token?).1
  | AppOp.opAdjustCapacity sid cc ca cu => (updateSlotCapacity db sid cc ca cu).1
  | AppOp.opCloseWaitlist now sid => (closeWaitlist db now sid).1
  | AppOp.opSweep now => sweep db now

/-! ### Generic list lemmas used throughout -/

theorem find_map_of_pred {α : Type} (g : α → α) (p : α → Bool)
    (h : ∀ x, p (g x) = p x) :
    ∀ l : List α, (l.map g).find? p = (l.find? p).map g := by
  intro l
  induction l with
  | nil => simp
  | cons x xs ih =>
    by_cases hx : p x
    · simp [List.find?, h x, hx]
    · simp only [Bool.not_eq_true] at hx
      simp [List.find?, h x, hx, ih]

theorem filter_map_of_pred {α : Type} (g : α → α) (p : α → Bool)
    (h : ∀ x, p (g x) = p x) :
    ∀ l : List α, (l.map g).filter p = (l.filter p).map g := by
  intro l
  induction l with
  | nil => simp
  | cons x xs ih =>
    by_cases hx : p x
    · simp [List.filter, h x, hx, ih]
    · simp only [Bool.not_eq_true] at hx
      simp [List.filter, h x, hx, ih]

theorem filter_map_untouched {α : Type} (g : α → α) (p : α → Bool)
    (h : ∀ x, p (g x) = p x) :
    ∀ l : List α, (∀ x ∈ l, p x = true → g x = x) →
      (l.map g).filter p = l.filter p := by
  intro l hid
  rw [filter_map_of_pred g p h l]
  have : ∀ x ∈ l.filter p, g x = x := by
    intro x hx
    have hm := List.mem_filter.mp hx
    exact hid x hm.1 hm.2
  calc (l.filter p).map g = (l.filter p).map id := List.map_congr_left this
    _ = l.filter p := List.map_id _

theorem find_key_of_mem {α β : Type} [DecidableEq β] (key : α → β) {l : List α} {r : α}
    (hnd : (l.map key).Nodup) (hr : r ∈ l) :
    l.find? (fun x => key x == key r) = some r := by
  induction l with
  | nil => cases hr
  | cons x xs ih =>
    rcases List.mem_cons.mp hr with h | h
    · subst h
      simp [List.find?]
    · have hx : key x ≠ key r := by
        intro hk
        have : key r ∈ xs.map key := List.mem_map_of_mem key h
        rw [List.map_cons] at hnd
        exact (List.nodup_cons.mp hnd).1 (hk ▸ this)
      have hnd2 : (xs.map key).Nodup := by
        rw [List.map_cons] at hnd
        exact (List.nodup_cons.mp hnd).2
      have hxb : (key x == key r) = false := by simpa using hx
      simp [List.find?, hxb, ih hnd2 h]

theorem key_inj_of_nodup {α β : Type} [DecidableEq β] (key : α → β) {l : List α}
    (hnd : (l.map key).Nodup) {a b : α} (ha : a ∈ l) (hb : b ∈ l)
    (hk : key a = key b) : a = b :=
  List.inj_on_of_nodup_map hnd ha hb hk

theorem mem_uniqueKeysAux {a : Nat} :
    ∀ {l seen : List Nat}, a ∈ uniqueKeysAux seen l ↔ a ∈ l ∧ a ∉ seen := by
  intro l
  induction l with
  | nil => intro seen; simp [uniqueKeysAux]
  | cons x xs ih =>
    intro seen
    unfold uniqueKeysAux
    by_cases hx : x ∈ seen
    · rw [if_pos hx]
      rw [ih]
      constructor
      · rintro ⟨h1, h2⟩
        exact ⟨List.mem_cons_of_mem _ h1, h2⟩
      · rintro ⟨h1, h2⟩
        rcases List.mem_cons.mp h1 with h | h
        · subst h
          exact absurd hx h2
        · exact ⟨h, h2⟩
    · rw [if_neg hx]
      by_cases hax : a = x
      · subst hax
        simp [hx]
      · simp only [List.mem_cons, hax, false_or]
        rw [ih]
        constructor
        · rintro ⟨h1, h2⟩
          refine ⟨h1, ?_⟩
          intro hc
          exact h2 (List.mem_cons_of_mem _ hc)
        · rintro ⟨h1, h2⟩
          refine ⟨h1, ?_⟩
          intro hc
          rcases List.mem_cons.mp hc with h | h
          · exact hax h
          · exact h2 h

theorem mem_uniqueKeys {a : Nat} : ∀ {l : List Nat}, a ∈ uniqueKeys l ↔ a ∈ l := by
  intro l
  unfold uniqueKeys
  rw [mem_uniqueKeysAux]
  simp

/-! ### Small simp lemmas about the row updates -/

@[simp] theorem updateSlot_requests (db : Db) (sid : Nat) (f : ClassSlot → ClassSlot) :
    (updateSlot db sid f).requests = db.requests := rfl

@[simp] theorem updateSlot_notices (db : Db) (sid : Nat) (f : ClassSlot → ClassSlot) :
    (updateSlot db sid f).notices = db.notices := rfl

@[simp] theorem updateSlot_sentEmails (db : Db) (sid : Nat) (f : ClassSlot → ClassSlot) :
    (updateSlot db sid f).sentEmails = db.sentEmails := rfl

@[simp] theorem updateSlot_nextId (db : Db) (sid : Nat) (f : ClassSlot → ClassSlot) :
    (updateSlot db sid f).nextId = db.nextId := rfl

@[simp] theorem updateRequest_slots (db : Db) (rid : Nat) (f : Request → Request) :
    (updateRequest db rid f).slots = db.slots := rfl

@[simp] theorem updateRequest_notices (db : Db) (rid : Nat) (f : Request → Request) :
    (updateRequest db rid f).notices = db.notices := rfl

@[simp] theorem updateRequest_sentEmails (db : Db) (rid : Nat) (f : Request → Request) :
    (updateRequest db rid f).sentEmails = db.sentEmails := rfl

@[simp] theorem updateRequest_nextId (db : Db) (rid : Nat) (f : Request → Request) :
    (updateRequest db rid f).nextId = db.nextId := rfl

@[simp] theorem updateNotice_slots (db : Db) (nid : Nat) (f : AbsenceNotice → AbsenceNotice) :
    (updateNotice db nid f).slots = db.slots := rfl

@[simp] theorem updateNotice_requests (db : Db) (nid : Nat) (f : AbsenceNotice → AbsenceNotice) :
    (updateNotice db nid f).requests = db.requests := rfl

@[simp] theorem updateNotice_sentEmails (db : Db) (nid : Nat) (f : AbsenceNotice → AbsenceNotice) :
    (updateNotice db nid f).sentEmails = db.sentEmails := rfl

@[simp] theorem updateNotice_nextId (db : Db) (nid : Nat) (f : AbsenceNotice → AbsenceNotice) :
    (updateNotice db nid f).nextId = db.nextId := rfl

theorem updateRequest_requests_eq (db : Db) (rid : Nat) (f : Request → Request) :
    (updateRequest db rid f).requests =
      db.requests.map (fun r => if r.id == rid then f r else r) := rfl

theorem updateSlot_slots_eq (db : Db) (sid : Nat) (f : ClassSlot → ClassSlot) :
    (updateSlot db sid f).slots =
      db.slots.map (fun s => if s.id == sid then f s else s) := rfl

theorem updateNotice_notices_eq (db : Db) (nid : Nat) (f : AbsenceNotice → AbsenceNotice) :
    (updateNotice db nid f).notices =
      db.notices.map (fun n => if n.id == nid then f n else n) := rfl

theorem findSlot_updateSlot (db : Db) (sid sid2 : Nat) (f : ClassSlot → ClassSlot)
    (hf : ∀ s, (f s).id = s.id) :
    findSlot (updateSlot db sid f) sid2 =
      (findSlot db sid2).map (fun s => if s.id == sid then f s else s) := by
  unfold findSlot updateSlot
  exact find_map_of_pred _ _
    (fun x => by by_cases hx : x.id = sid <;> simp [hx, hf]) db.slots

theorem findRequest_updateRequest (db : Db) (rid rid2 : Nat) (f : Request → Request)
    (hf : ∀ r, (f r).id = r.id) :
    findRequest (updateRequest db rid f) rid2 =
      (findRequest db rid2).map (fun r => if r.id == rid then f r else r) := by
  unfold findRequest updateRequest
  exact find_map_of_pred _ _
    (fun x => by by_cases hx : x.id = rid <;> simp [hx, hf]) db.requests

theorem updateSlot_ids (db : Db) (sid : Nat) (f : ClassSlot → ClassSlot)
    (hf : ∀ s, (f s).id = s.id) :
    (updateSlot db sid f).slots.map (fun s => s.id) = db.slots.map (fun s => s.id) := by
  unfold updateSlot
  simp only [List.map_map]
  refine List.map_congr_left ?_
  intro s _
  by_cases hx : s.id = sid <;> simp [hx, hf]

theorem updateRequest_ids (db : Db) (rid : Nat) (f : Request → Request)
    (hf : ∀ r, (f r).id = r.id) :
    (updateRequest db rid f).requests.map (fun r => r.id) =
      db.requests.map (fun r => r.id) := by
  unfold updateRequest
  simp only [List.map_map]
  refine List.map_congr_left ?_
  intro r _
  by_cases hx : r.id = rid <;> simp [hx, hf]

theorem filter_map_kill {α : Type} (q : α → Bool) (g : α → α) (p : α → Bool)
    (h : ∀ x, q x = true → p (g x) = false) :
    ∀ l : List α,
      (l.map (fun x => if q x then g x else x)).filter p =
        (l.filter p).filter (fun x => !(q x)) := by
  intro l
  induction l with
  | nil => simp
  | cons x xs ih =>
    by_cases hq : q x
    · have hpg := h x hq
      by_cases hp : p x <;> simp [hq, hp, hpg, ih]
    · simp only [Bool.not_eq_true] at hq
      by_cases hp : p x <;> simp [hq, hp, ih]

/-! ### The promotion engine: step lemmas -/

theorem findSlot_id {db : Db} {sid : Nat} {s : ClassSlot}
    (h : findSlot db sid = some s) : s.id = sid := by
  have := List.find?_some h
  simpa using this

theorem findSlot_mem {db : Db} {sid : Nat} {s : ClassSlot}
    (h : findSlot db sid = some s) : s ∈ db.slots :=
  List.mem_of_find?_eq_some h

theorem findRequest_id {db : Db} {rid : Nat} {r : Request}
    (h : findRequest db rid = some r) : r.id = rid := by
  have := List.find?_some h
  simpa using this

theorem findRequest_mem {db : Db} {rid : Nat} {r : Request}
    (h : findRequest db rid = some r) : r ∈ db.requests :=
  List.mem_of_find?_eq_some h

/-- The row function applied to the promoted request. -/
def confirmRow (tok : Nat) (r : Request) : Request :=
  { r with status := RequestStatus.confirmed, declineToken := some tok }

/-- The row function applied to the slot on each promotion. -/
def consumeRow (s : ClassSlot) : ClassSlot :=
  { s with capacityMakeupUsed := s.capacityMakeupUsed + 1,
           waitlistCount := s.waitlistCount - 1 }

theorem promoteRequest_requests (db : Db) (slot : ClassSlot) (req : Request) :
    (promoteRequest db slot req).requests =
      db.requests.map (fun r => if r.id == req.id then confirmRow db.nextId r else r) := by
  unfold promoteRequest confirmRow
  cases req.contactEmail <;> rfl

theorem promoteRequest_slots (db : Db) (slot : ClassSlot) (req : Request) :
    (promoteRequest db slot req).slots =
      db.slots.map (fun s => if s.id == slot.id then consumeRow s else s) := by
  unfold promoteRequest consumeRow
  cases req.contactEmail <;> rfl

theorem promoteRequest_notices (db : Db) (slot : ClassSlot) (req : Request) :
    (promoteRequest db slot req).notices = db.notices := by
  unfold promoteRequest
  cases req.contactEmail <;> rfl

theorem promoteRequest_nextId (db : Db) (slot : ClassSlot) (req : Request) :
    (promoteRequest db slot req).nextId = db.nextId + 1 := by
  unfold promoteRequest
  cases req.contactEmail <;> rfl

theorem promoteRequest_sentEmails (db : Db) (slot : ClassSlot) (req : Request) :
    ∃ es, (promoteRequest db slot req).sentEmails = db.sentEmails ++ es := by
  unfold promoteRequest
  cases req.contactEmail with
  | none => exact ⟨[], by simp⟩
  | some addr => exact ⟨_, rfl⟩

theorem promoteRequest_request_ids (db : Db) (slot : ClassSlot) (req : Request) :
    (promoteRequest db slot req).requests.map (fun r => r.id) =
      db.requests.map (fun r => r.id) := by
  rw [promoteRequest_requests]
  simp only [List.map_map]
  refine List.map_congr_left ?_
  intro r _
  by_cases hx : r.id = req.id <;> simp [hx, confirmRow]

theorem promoteRequest_slot_ids (db : Db) (slot : ClassSlot) (req : Request) :
    (promoteRequest db slot req).slots.map (fun s => s.id) =
      db.slots.map (fun s => s.id) := by
  rw [promoteRequest_slots]
  simp only [List.map_map]
  refine List.map_congr_left ?_
  intro s _
  by_cases hx : s.id = slot.id <;> simp [hx, consumeRow]

theorem findSlot_promoteRequest (db : Db) (slot : ClassSlot) (req : Request)
    (sid : Nat) (hs : findSlot db sid = some slot) :
    findSlot (promoteRequest db slot req) sid = some (consumeRow slot) := by
  have hid : slot.id = sid := findSlot_id hs
  unfold findSlot
  rw [promoteRequest_slots]
  rw [find_map_of_pred (fun s => if s.id == slot.id then consumeRow s else s)
    (fun s => s.id == sid)
    (fun x => by by_cases hx : x.id = slot.id <;> simp [hx, consumeRow])]
  unfold findSlot at hs
  rw [hs]
  simp [hid, consumeRow]

theorem waitingFor_promoteRequest (db : Db) (slot : ClassSlot) (req : Request)
    (sid2 : Nat) :
    waitingFor (promoteRequest db slot req) sid2 =
      (waitingFor db sid2).filter (fun r => !(r.id == req.id)) := by
  unfold waitingFor
  rw [promoteRequest_requests]
  rw [filter_map_kill (fun r => r.id == req.id) (confirmRow db.nextId)
    (isWaitingFor sid2) (fun x _ => by simp [isWaitingFor, confirmRow])]

theorem findRequest_promoteRequest (db : Db) (slot : ClassSlot) (req : Request)
    (rid : Nat) :
    findRequest (promoteRequest db slot req) rid =
      (findRequest db rid).map
        (fun r => if r.id == req.id then confirmRow db.nextId r else r) := by
  unfold findRequest
  rw [promoteRequest_requests]
  exact find_map_of_pred _ _
    (fun x => by by_cases hx : x.id = req.id <;> simp [hx, confirmRow]) db.requests

/-! ### The promotion engine: loop lemmas -/

theorem confirmLoop_succ (fuel : Nat) (db : Db) (sid : Nat) :
    confirmLoop (fuel + 1) db sid =
      match findSlot db sid with
      | none => (db, [])
      | some slot =>
        if slot.capacityMakeupAllowed - slot.capacityMakeupUsed < 1 then (db, [])
        else
          match oldestWaiting db sid with
          | none => (db, [])
          | some nextRequest =>
            ((confirmLoop fuel (promoteRequest db slot nextRequest) sid).1,
              nextRequest ::
                (confirmLoop fuel (promoteRequest db slot nextRequest) sid).2) := rfl

theorem confirmLoop_notices (fuel : Nat) :
    ∀ (db : Db) (sid : Nat), (confirmLoop fuel db sid).1.notices = db.notices := by
  induction fuel with
  | zero => intro db sid; rfl
  | succ fuel ih =>
    intro db sid
    rw [confirmLoop_succ]
    cases hs : findSlot db sid with
    | none => rfl
    | some slot =>
      by_cases hrem : slot.capacityMakeupAllowed - slot.capacityMakeupUsed < 1
      · simp [hrem]
      · simp only [hrem, if_false]
        cases ho : oldestWaiting db sid with
        | none => rfl
        | some nextRequest =>
          simp only []
          rw [ih]
          exact promoteRequest_notices db slot nextRequest

theorem confirmLoop_request_ids (fuel : Nat) :
    ∀ (db : Db) (sid : Nat),
      (confirmLoop fuel db sid).1.requests.map (fun r => r.id) =
        db.requests.map (fun r => r.id) := by
  induction fuel with
  | zero => intro db sid; rfl
  | succ fuel ih =>
    intro db sid
    rw [confirmLoop_succ]
    cases hs : findSlot db sid with
    | none => rfl
    | some slot =>
      by_cases hrem : slot.capacityMakeupAllowed - slot.capacityMakeupUsed < 1
      · simp [hrem]
      · simp only [hrem, if_false]
        cases ho : oldestWaiting db sid with
        | none => rfl
        | some nextRequest =>
          simp only []
          rw [ih]
          exact promoteRequest_request_ids db slot nextRequest

theorem confirmLoop_slot_ids (fuel : Nat) :
    ∀ (db : Db) (sid : Nat),
      (confirmLoop fuel db sid).1.slots.map (fun s => s.id) =
        db.slots.map (fun s => s.id) := by
  induction fuel with
  | zero => intro db sid; rfl
  | succ fuel ih =>
    intro db sid
    rw [confirmLoop_succ]
    cases hs : findSlot db sid with
    | none => rfl
    | some slot =>
      by_cases hrem : slot.capacityMakeupAllowed - slot.capacityMakeupUsed < 1
      · simp [hrem]
      · simp only [hrem, if_false]
        cases ho : oldestWaiting db sid with
        | none => rfl
        | some nextRequest =>
          simp only []
          rw [ih]
          exact promoteRequest_slot_ids db slot nextRequest

theorem confirmLoop_sentEmails (fuel : Nat) :
    ∀ (db : Db) (sid : Nat),
      ∃ es, (confirmLoop fuel db sid).1.sentEmails = db.sentEmails ++ es := by
  induction fuel with
  | zero => intro db sid; exact ⟨[], by simp [confirmLoop]⟩
  | succ fuel ih =>
    intro db sid
    rw [confirmLoop_succ]
    cases hs : findSlot db sid with
    | none => exact ⟨[], by simp⟩
    | some slot =>
      by_cases hrem : slot.capacityMakeupAllowed - slot.capacityMakeupUsed < 1
      · simp only [hrem, if_true]
        exact ⟨[], by simp⟩
      · simp only [hrem, if_false]
        cases ho : oldestWaiting db sid with
        | none => exact ⟨[], by simp⟩
        | some nextRequest =>
          simp only []
          obtain ⟨es1, h1⟩ := promoteRequest_sentEmails db slot nextRequest
          obtain ⟨es2, h2⟩ := ih (promoteRequest db slot nextRequest) sid
          exact ⟨es1 ++ es2, by rw [h2, h1, List.append_assoc]⟩

theorem confirmLoop_nextId_le (fuel : Nat) :
    ∀ (db : Db) (sid : Nat), db.nextId ≤ (confirmLoop fuel db sid).1.nextId := by
  induction fuel with
  | zero => intro db sid; exact Nat.le_refl _
  | succ fuel ih =>
    intro db sid
    rw [confirmLoop_succ]
    cases hs : findSlot db sid with
    | none => exact Nat.le_refl _
    | some slot =>
      by_cases hrem : slot.capacityMakeupAllowed - slot.capacityMakeupUsed < 1
      · simp only [hrem, if_true]
        exact Nat.le_refl _
      · simp only [hrem, if_false]
        cases ho : oldestWaiting db sid with
        | none => exact Nat.le_refl _
        | some nextRequest =>
          simp only []
          have h1 := ih (promoteRequest db slot nextRequest) sid
          rw [promoteRequest_nextId] at h1
          omega

theorem foldl_olderOf_mem (rs : List Request) :
    ∀ r : Request, rs.foldl olderOf r ∈ r :: rs := by
  induction rs with
  | nil => intro r; simp
  | cons x xs ih =>
    intro r
    have h := ih (olderOf r x)
    have hol : olderOf r x = r ∨ olderOf r x = x := by
      unfold olderOf
      by_cases hc : x.createdAt < r.createdAt <;> simp [hc]
    rcases List.mem_cons.mp h with h1 | h1
    · rcases hol with h2 | h2 <;> rw [List.foldl_cons, h1, h2] <;> simp
    · rw [List.foldl_cons]
      exact List.mem_cons_of_mem _ (List.mem_cons_of_mem _ h1)

theorem foldl_olderOf_le (rs : List Request) :
    ∀ r : Request, ∀ x ∈ r :: rs, (rs.foldl olderOf r).createdAt ≤ x.createdAt := by
  induction rs with
  | nil =>
    intro r x hx
    rcases List.mem_cons.mp hx with h | h
    · subst h; simp
    · cases h
  | cons y ys ih =>
    intro r x hx
    have hle_r : (olderOf r y).createdAt ≤ r.createdAt := by
      unfold olderOf
      split <;> omega
    have hle_y : (olderOf r y).createdAt ≤ y.createdAt := by
      unfold olderOf
      split <;> omega
    have hhead := ih (olderOf r y) (olderOf r y) (List.mem_cons_self _ _)
    rw [List.foldl_cons]
    rcases List.mem_cons.mp hx with h | h
    · subst h
      exact le_trans hhead hle_r
    · rcases List.mem_cons.mp h with h2 | h2
      · subst h2
        exact le_trans hhead hle_y
      · exact ih (olderOf r y) x (List.mem_cons_of_mem _ h2)

theorem oldestWaiting_mem {db : Db} {sid : Nat} {m : Request}
    (h : oldestWaiting db sid = some m) : m ∈ waitingFor db sid := by
  unfold oldestWaiting at h
  cases hW : waitingFor db sid with
  | nil => rw [hW] at h; cases h
  | cons r rs =>
    rw [hW] at h
    have := foldl_olderOf_mem rs r
    simp only [Option.some.injEq] at h
    rw [h] at this
    exact this

theorem oldestWaiting_min {db : Db} {sid : Nat} {m : Request}
    (h : oldestWaiting db sid = some m) :
    ∀ x ∈ waitingFor db sid, m.createdAt ≤ x.createdAt := by
  unfold oldestWaiting at h
  cases hW : waitingFor db sid with
  | nil => rw [hW] at h; cases h
  | cons r rs =>
    rw [hW] at h
    simp only [Option.some.injEq] at h
    intro x hx
    rw [← h]
    exact foldl_olderOf_le rs r x hx

theorem oldestWaiting_of_cons {db : Db} {sid : Nat} {r : Request} {rs : List Request}
    (hW : waitingFor db sid = r :: rs) :
    oldestWaiting db sid = some (rs.foldl olderOf r) := by
  unfold oldestWaiting
  rw [hW]

theorem oldestWaiting_of_nil {db : Db} {sid : Nat}
    (hW : waitingFor db sid = []) : oldestWaiting db sid = none := by
  unfold oldestWaiting
  rw [hW]

theorem waitingFor_sublist (db : Db) (sid : Nat) :
    (waitingFor db sid).Sublist db.requests :=
  List.filter_sublist _

theorem waitingFor_ids_nodup {db : Db} (sid : Nat)
    (hnd : (db.requests.map (fun r => r.id)).Nodup) :
    ((waitingFor db sid).map (fun r => r.id)).Nodup :=
  ((waitingFor_sublist db sid).map _).nodup hnd

theorem waitingFor_nodup {db : Db} (sid : Nat)
    (hnd : (db.requests.map (fun r => r.id)).Nodup) :
    (waitingFor db sid).Nodup :=
  (waitingFor_ids_nodup sid hnd).of_map

theorem waitingFor_mem_requests {db : Db} {sid : Nat} {r : Request}
    (h : r ∈ waitingFor db sid) : r ∈ db.requests :=
  (List.mem_filter.mp h).1

theorem waitingFor_mem_status {db : Db} {sid : Nat} {r : Request}
    (h : r ∈ waitingFor db sid) :
    r.status = RequestStatus.waiting ∧ r.toSlotId = sid := by
  have := (List.mem_filter.mp h).2
  unfold isWaitingFor at this
  simp only [Bool.and_eq_true, beq_iff_eq, decide_eq_true_eq] at this
  exact ⟨this.2, this.1⟩

theorem waitingFor_promote_erase {db : Db} {sid : Nat} {m : Request}
    (slot : ClassSlot) (hnd : (db.requests.map (fun r => r.id)).Nodup)
    (hm : m ∈ waitingFor db sid) :
    waitingFor (promoteRequest db slot m) sid = (waitingFor db sid).erase m := by
  rw [waitingFor_promoteRequest]
  have hWnd : (waitingFor db sid).Nodup := waitingFor_nodup sid hnd
  have hids : ((waitingFor db sid).map (fun r => r.id)).Nodup :=
    waitingFor_ids_nodup sid hnd
  rw [List.Nodup.erase_eq_filter hWnd]
  refine List.filter_congr ?_
  intro x hx
  by_cases hxm : x = m
  · subst hxm
    simp
  · have hxid : x.id ≠ m.id := by
      intro hk
      exact hxm (key_inj_of_nodup (fun r => r.id) hids hx hm hk)
    have h1 : (x.id == m.id) = false := by simp [hxid]
    have h2 : (x != m) = true := by simp [hxm]
    simp [h1, h2]

theorem confirmLoop_preserves_nonwaiting (fuel : Nat) :
    ∀ (db : Db) (sid rid : Nat),
      (∀ x ∈ db.requests, x.id = rid → x.status ≠ RequestStatus.waiting) →
      findRequest (confirmLoop fuel db sid).1 rid = findRequest db rid := by
  induction fuel with
  | zero => intro db sid rid _; rfl
  | succ fuel ih =>
    intro db sid rid h
    rw [confirmLoop_succ]
    cases hs : findSlot db sid with
    | none => rfl
    | some slot =>
      by_cases hrem : slot.capacityMakeupAllowed - slot.capacityMakeupUsed < 1
      · simp [hrem]
      · simp only [hrem, if_false]
        cases ho : oldestWaiting db sid with
        | none => rfl
        | some m =>
          simp only []
          have hmW := oldestWaiting_mem ho
          have hmStat := (waitingFor_mem_status hmW).1
          have hmReq := waitingFor_mem_requests hmW
          have hmid : m.id ≠ rid := fun hk => h m hmReq hk hmStat
          have step : findRequest (promoteRequest db slot m) rid = findRequest db rid := by
            rw [findRequest_promoteRequest]
            cases hf : findRequest db rid with
            | none => rfl
            | some r =>
              have hr_id : r.id = rid := findRequest_id hf
              have hfalse : (r.id == m.id) = false := by
                simp only [beq_eq_false_iff_ne, ne_eq]
                intro hc
                exact hmid (by rw [← hc, hr_id])
              simp only [Option.map_some', hfalse, Bool.false_eq_true, if_false]
          have hprop : ∀ x ∈ (promoteRequest db slot m).requests, x.id = rid →
              x.status ≠ RequestStatus.waiting := by
            intro x hx hxid
            rw [promoteRequest_requests] at hx
            obtain ⟨x0, hx0, hgx⟩ := List.mem_map.mp hx
            by_cases hc : (x0.id == m.id) = true
            · rw [if_pos hc] at hgx
              rw [← hgx]
              simp [confirmRow]
            · rw [if_neg hc] at hgx
              subst hgx
              exact h x0 hx0 hxid
          rw [ih _ _ _ hprop, step]

/-- Master lemma about the promotion loop, run with at most `remaining` fuel
on a database with unique request ids and pairwise-distinct creation times on
the slot's waitlist.  It yields: the trace length, trace membership, strict
FIFO ordering of the trace, minimality of the traced timestamps, the final
slot counters, and the final request rows. -/
theorem confirmLoop_master (fuel : Nat) :
    ∀ (db : Db) (sid : Nat) (s : ClassSlot),
      findSlot db sid = some s →
      (db.requests.map (fun r => r.id)).Nodup →
      ((waitingFor db sid).map (fun r => r.createdAt)).Nodup →
      fuel ≤ (s.capacityMakeupAllowed - s.capacityMakeupUsed).toNat →
      ((confirmLoop fuel db sid).2.length
          = min fuel (waitingFor db sid).length)
      ∧ (∀ t ∈ (confirmLoop fuel db sid).2, t ∈ waitingFor db sid)
      ∧ List.Pairwise (fun a b => a.createdAt < b.createdAt)
          (confirmLoop fuel db sid).2
      ∧ (∀ w ∈ waitingFor db sid, w ∉ (confirmLoop fuel db sid).2 →
          ∀ t ∈ (confirmLoop fuel db sid).2, t.createdAt < w.createdAt)
      ∧ (∃ s2, findSlot (confirmLoop fuel db sid).1 sid = some s2
          ∧ s2.capacityLimit = s.capacityLimit
          ∧ s2.capacityCurrent = s.capacityCurrent
          ∧ s2.capacityMakeupAllowed = s.capacityMakeupAllowed
          ∧ s2.capacityMakeupUsed =
              s.capacityMakeupUsed + ((confirmLoop fuel db sid).2.length : Int)
          ∧ s2.waitlistCount =
              s.waitlistCount - ((confirmLoop fuel db sid).2.length : Int))
      ∧ (∀ t ∈ (confirmLoop fuel db sid).2, ∃ tok,
          findRequest (confirmLoop fuel db sid).1 t.id = some (confirmRow tok t))
      ∧ (∀ rid : Nat, rid ∉ (confirmLoop fuel db sid).2.map (fun r => r.id) →
          findRequest (confirmLoop fuel db sid).1 rid = findRequest db rid) := by
  induction fuel with
  | zero =>
    intro db sid s hs hnd hdist hfuel
    exact ⟨by simp [confirmLoop], by simp [confirmLoop], by simp [confirmLoop],
      by simp [confirmLoop],
      ⟨s, hs, rfl, rfl, rfl, by simp [confirmLoop], by simp [confirmLoop]⟩,
      by simp [confirmLoop], fun rid _ => rfl⟩
  | succ fuel ih =>
    intro db sid s hs hnd hdist hfuel
    have hrem : ¬(s.capacityMakeupAllowed - s.capacityMakeupUsed < 1) := by
      have h1 : 1 ≤ (s.capacityMakeupAllowed - s.capacityMakeupUsed).toNat := by
        omega
      omega
    by_cases hWnil : waitingFor db sid = []
    · have ho : oldestWaiting db sid = none := oldestWaiting_of_nil hWnil
      have hres : confirmLoop (fuel + 1) db sid = (db, []) := by
        rw [confirmLoop_succ, hs]
        simp only [hrem, if_false, ho]
      rw [hres]
      refine ⟨by simp [hWnil], by simp, by simp, by simp,
        ⟨s, hs, rfl, rfl, rfl, by simp, by simp⟩, by simp, fun rid _ => rfl⟩
    · obtain ⟨w, ws, hW⟩ : ∃ w ws, waitingFor db sid = w :: ws := by
        cases hq : waitingFor db sid with
        | nil => exact absurd hq hWnil
        | cons a as => exact ⟨a, as, rfl⟩
      have ho : oldestWaiting db sid = some (ws.foldl olderOf w) :=
        oldestWaiting_of_cons hW
      set m := ws.foldl olderOf w with hm
      have hres : confirmLoop (fuel + 1) db sid =
          ((confirmLoop fuel (promoteRequest db s m) sid).1,
            m :: (confirmLoop fuel (promoteRequest db s m) sid).2) := by
        rw [confirmLoop_succ, hs]
        simp only [hrem, if_false, ho]
      have hmW : m ∈ waitingFor db sid := oldestWaiting_mem ho
      have hmin : ∀ x ∈ waitingFor db sid, m.createdAt ≤ x.createdAt :=
        oldestWaiting_min ho
      have hWnd : (waitingFor db sid).Nodup := waitingFor_nodup sid hnd
      have hWids : ((waitingFor db sid).map (fun r => r.id)).Nodup :=
        waitingFor_ids_nodup sid hnd
      have hm_strict : ∀ x ∈ waitingFor db sid, x ≠ m →
          m.createdAt < x.createdAt := by
        intro x hx hxm
        rcases lt_or_eq_of_le (hmin x hx) with h | h
        · exact h
        · exact absurd (key_inj_of_nodup (fun r => r.createdAt) hdist hx hmW h.symm)
            hxm
      set db4 := promoteRequest db s m with hdb4
      have hs4 : findSlot db4 sid = some (consumeRow s) :=
        findSlot_promoteRequest db s m sid hs
      have hnd4 : (db4.requests.map (fun r => r.id)).Nodup := by
        rw [hdb4, promoteRequest_request_ids]
        exact hnd
      have hW4 : waitingFor db4 sid = (waitingFor db sid).erase m :=
        waitingFor_promote_erase s hnd hmW
      have hdist4 : ((waitingFor db4 sid).map (fun r => r.createdAt)).Nodup := by
        rw [hW4]
        exact ((List.erase_sublist m _).map _).nodup hdist
      have hfuel4 : fuel ≤
          ((consumeRow s).capacityMakeupAllowed -
            (consumeRow s).capacityMakeupUsed).toNat := by
        simp only [consumeRow]
        omega
      obtain ⟨IH1, IH2, IH3, IH4, ⟨s2, hs2, hL2, hC2, hA2, hU2, hWc2⟩, IH6, IH7⟩ :=
        ih db4 sid (consumeRow s) hs4 hnd4 hdist4 hfuel4
      have hW4mem : ∀ x, x ∈ waitingFor db4 sid ↔ x ≠ m ∧ x ∈ waitingFor db sid := by
        intro x
        rw [hW4]
        exact hWnd.mem_erase_iff
      have hW4len : (waitingFor db4 sid).length = ws.length := by
        rw [hW4, List.length_erase_of_mem hmW, hW]
        simp
      have hmid_not : m.id ∉ (confirmLoop fuel db4 sid).2.map (fun r => r.id) := by
        intro hmem
        obtain ⟨t, ht, htid⟩ := List.mem_map.mp hmem
        have ht4 := IH2 t ht
        have := (hW4mem t).mp ht4
        exact this.1 (key_inj_of_nodup (fun r => r.id) hWids this.2 hmW htid)
      have hmReq : m ∈ db.requests := waitingFor_mem_requests hmW
      have hfind_m : findRequest db m.id = some m := by
        unfold findRequest
        exact find_key_of_mem (fun r => r.id) hnd hmReq
      have hWlen : (waitingFor db sid).length = ws.length + 1 := by
        rw [hW]
        rfl
      refine ⟨?_, ?_, ?_, ?_, ?_, ?_, ?_⟩
      · rw [hres]
        simp only [List.length_cons]
        rw [IH1, hW4len, hWlen]
        omega
      · rw [hres]
        intro t ht
        rcases List.mem_cons.mp ht with h | h
        · rw [h]; exact hmW
        · exact ((hW4mem t).mp (IH2 t h)).2
      · rw [hres]
        refine List.Pairwise.cons ?_ IH3
        intro t ht
        have := (hW4mem t).mp (IH2 t ht)
        exact hm_strict t this.2 this.1
      · rw [hres]
        intro w2 hw2 hw2not t ht
        have hw2ne : w2 ≠ m := by
          intro hc
          exact hw2not (by rw [hc]; exact List.mem_cons_self _ _)
        have hw2T : w2 ∉ (confirmLoop fuel db4 sid).2 := by
          intro hc
          exact hw2not (List.mem_cons_of_mem _ hc)
        rcases List.mem_cons.mp ht with h | h
        · rw [h]
          exact hm_strict w2 hw2 hw2ne
        · exact IH4 w2 ((hW4mem w2).mpr ⟨hw2ne, hw2⟩) hw2T t h
      · refine ⟨s2, ?_⟩
        rw [hres]
        simp only [List.length_cons]
        refine ⟨hs2, by rw [hL2]; rfl, by rw [hC2]; rfl, by rw [hA2]; rfl, ?_, ?_⟩
        · rw [hU2]
          simp only [consumeRow]
          push_cast
          omega
        · rw [hWc2]
          simp only [consumeRow]
          push_cast
          omega
      · rw [hres]
        intro t ht
        rcases List.mem_cons.mp ht with h | h
        · subst h
          refine ⟨db.nextId, ?_⟩
          rw [IH7 m.id hmid_not]
          rw [hdb4, findRequest_promoteRequest, hfind_m]
          simp
        · exact IH6 t h
      · rw [hres]
        intro rid hrid
        simp only [List.map_cons, List.mem_cons] at hrid
        push_neg at hrid
        rw [IH7 rid hrid.2]
        rw [hdb4, findRequest_promoteRequest]
        cases hf : findRequest db rid with
        | none => rfl
        | some r =>
          have hr_id : r.id = rid := findRequest_id hf
          have hfalse : (r.id == m.id) = false := by
            simp only [beq_eq_false_iff_ne, ne_eq]
            intro hc
            exact hrid.1 (by rw [← hc, hr_id])
          simp only [Option.map_some', hfalse, Bool.false_eq_true, if_false]

theorem slotRemainingFuel_eq_some {db : Db} {sid : Nat} {s : ClassSlot}
    (hs : findSlot db sid = some s) :
    slotRemainingFuel db sid =
      (s.capacityMakeupAllowed - s.capacityMakeupUsed).toNat := by
  unfold slotRemainingFuel
  rw [hs]

theorem slotRemainingFuel_zero_stops {db : Db} {sid : Nat}
    (h : slotRemainingFuel db sid = 0) :
    ∀ fuel, confirmLoop fuel db sid = (db, []) := by
  intro fuel
  cases fuel with
  | zero => rfl
  | succ fuel =>
    rw [confirmLoop_succ]
    cases hs : findSlot db sid with
    | none => rfl
    | some slot =>
      rw [slotRemainingFuel_eq_some hs] at h
      have hrem : slot.capacityMakeupAllowed - slot.capacityMakeupUsed < 1 := by
        omega
      simp [hrem]

theorem slotRemainingFuel_promote {db : Db} {sid : Nat} {s : ClassSlot}
    (hs : findSlot db sid = some s) (m : Request) :
    slotRemainingFuel (promoteRequest db s m) sid = slotRemainingFuel db sid - 1 := by
  rw [slotRemainingFuel_eq_some (findSlot_promoteRequest db s m sid hs),
    slotRemainingFuel_eq_some hs]
  simp only [consumeRow]
  omega

/-- Termination in fuel form: any two fuel budgets at least as large as the
remaining capacity produce the same result, so the unbounded `while (true)`
loop of the source is captured by `confirmNextWaiter`. -/
theorem confirmLoop_fuel_stable :
    ∀ (f1 : Nat) (db : Db) (sid : Nat) (f2 : Nat),
      slotRemainingFuel db sid ≤ f1 → slotRemainingFuel db sid ≤ f2 →
      confirmLoop f1 db sid = confirmLoop f2 db sid := by
  intro f1
  induction f1 with
  | zero =>
    intro db sid f2 h1 h2
    have hz : slotRemainingFuel db sid = 0 := Nat.le_zero.mp h1
    rw [slotRemainingFuel_zero_stops hz f2]
    rfl
  | succ f1 ih =>
    intro db sid f2 h1 h2
    by_cases hz : slotRemainingFuel db sid = 0
    · rw [slotRemainingFuel_zero_stops hz f2, slotRemainingFuel_zero_stops hz (f1 + 1)]
    · obtain ⟨g2, rfl⟩ : ∃ g2, f2 = g2 + 1 := by
        cases f2 with
        | zero => omega
        | succ g2 => exact ⟨g2, rfl⟩
      rw [confirmLoop_succ, confirmLoop_succ]
      cases hs : findSlot db sid with
      | none => rfl
      | some slot =>
        by_cases hrem : slot.capacityMakeupAllowed - slot.capacityMakeupUsed < 1
        · simp [hrem]
        · simp only [hrem, if_false]
          cases ho : oldestWaiting db sid with
          | none => rfl
          | some m =>
            simp only []
            have hstep := slotRemainingFuel_promote hs m
            have hle1 : slotRemainingFuel (promoteRequest db slot m) sid ≤ f1 := by
              omega
            have hle2 : slotRemainingFuel (promoteRequest db slot m) sid ≤ g2 := by
              omega
            rw [ih (promoteRequest db slot m) sid g2 hle1 hle2]

theorem length_filter_lt_of_mem_not {α : Type} {p : α → Bool} {l : List α} {a : α}
    (ha : a ∈ l) (hpa : p a = false) : (l.filter p).length < l.length := by
  induction l with
  | nil => cases ha
  | cons x xs ih =>
    rcases List.mem_cons.mp ha with h | h
    · subst h
      rw [List.filter_cons, hpa]
      simp only [List.length_cons]
      exact Nat.lt_succ_of_le (List.length_filter_le _ _)
    · rw [List.filter_cons]
      by_cases hx : p x
      · simp only [hx, List.length_cons]
        exact Nat.succ_lt_succ (ih h)
      · simp only [Bool.not_eq_true] at hx
        simp only [hx, List.length_cons]
        exact Nat.lt_succ_of_lt (ih h)

/-- Iteration bound for the promotion loop, with no assumption on the data:
the trace is never longer than the fuel nor than the number of waiting
requests at entry. -/
theorem confirmLoop_length_le (fuel : Nat) :
    ∀ (db : Db) (sid : Nat),
      (confirmLoop fuel db sid).2.length ≤
        min fuel (waitingFor db sid).length := by
  induction fuel with
  | zero => intro db sid; simp [confirmLoop]
  | succ fuel ih =>
    intro db sid
    rw [confirmLoop_succ]
    cases hs : findSlot db sid with
    | none => simp
    | some slot =>
      by_cases hrem : slot.capacityMakeupAllowed - slot.capacityMakeupUsed < 1
      · simp [hrem]
      · simp only [hrem, if_false]
        cases ho : oldestWaiting db sid with
        | none => simp
        | some m =>
          simp only [List.length_cons]
          have hmW : m ∈ waitingFor db sid := oldestWaiting_mem ho
          have hW4 : waitingFor (promoteRequest db slot m) sid =
              (waitingFor db sid).filter (fun r => !(r.id == m.id)) :=
            waitingFor_promoteRequest db slot m sid
          have hlt : ((waitingFor db sid).filter
              (fun r => !(r.id == m.id))).length < (waitingFor db sid).length :=
            length_filter_lt_of_mem_not hmW (by simp)
          have hIH := ih (promoteRequest db slot m) sid
          rw [hW4] at hIH
          omega

/-! ### The expiry sweeper: characterizing the two phases -/

/-- Expire a request row exactly when its id is in the given list. -/
def expireIfMem (ids : List Nat) (r : Request) : Request :=
  if r.id ∈ ids then { r with status := RequestStatus.expired } else r

theorem expireIfMem_nil (r : Request) : expireIfMem [] r = r := rfl

theorem expireIfMem_comp (A B : List Nat) (r : Request) :
    expireIfMem B (expireIfMem A r) = expireIfMem (A ++ B) r := by
  unfold expireIfMem
  by_cases hA : r.id ∈ A
  · by_cases hB : r.id ∈ B <;> simp [hA, hB]
  · by_cases hB : r.id ∈ B <;> simp [hA, hB]

theorem map_expireIfMem_comp (A B : List Nat) (l : List Request) :
    (l.map (expireIfMem A)).map (expireIfMem B) = l.map (expireIfMem (A ++ B)) := by
  rw [List.map_map]
  exact List.map_congr_left (fun r _ => expireIfMem_comp A B r)

theorem expireIfMem_congr {A B : List Nat} (r : Request)
    (h : r.id ∈ A ↔ r.id ∈ B) : expireIfMem A r = expireIfMem B r := by
  unfold expireIfMem
  by_cases hA : r.id ∈ A
  · simp [hA, h.mp hA]
  · have hB : r.id ∉ B := fun hb => hA (h.mpr hb)
    simp [hA, hB]

theorem sweepOneRequest_requests (now : Int) (slot : ClassSlot) (acc : Db)
    (r : Request) :
    (sweepOneRequest now slot acc r).requests =
      acc.requests.map (expireIfMem [r.id]) := by
  have h1 : (updateRequest acc r.id (fun x =>
      { x with status := RequestStatus.expired })).requests =
      acc.requests.map (expireIfMem [r.id]) := by
    rw [updateRequest_requests_eq]
    refine List.map_congr_left ?_
    intro x _
    unfold expireIfMem
    by_cases hx : x.id = r.id <;> simp [hx]
  unfold sweepOneRequest
  cases r.absenceNoticeId with
  | none =>
    cases r.contactEmail <;> simpa using h1
  | some nid =>
    cases hfn : findNotice (updateRequest acc r.id (fun x =>
        { x with status := RequestStatus.expired })) nid with
    | none => cases r.contactEmail <;> simp only [hfn] <;> simpa using h1
    | some absence =>
      cases r.contactEmail <;> simp only [hfn, updateNotice_requests] <;>
        simpa using h1

theorem sweepOneRequest_slots (now : Int) (slot : ClassSlot) (acc : Db)
    (r : Request) :
    (sweepOneRequest now slot acc r).slots = acc.slots := by
  unfold sweepOneRequest
  cases r.absenceNoticeId with
  | none => cases r.contactEmail <;> rfl
  | some nid =>
    cases hfn : findNotice (updateRequest acc r.id (fun x =>
        { x with status := RequestStatus.expired })) nid with
    | none => cases r.contactEmail <;> simp only [hfn] <;> rfl
    | some absence => cases r.contactEmail <;> simp only [hfn] <;> rfl

theorem sweepOneRequest_nextId (now : Int) (slot : ClassSlot) (acc : Db)
    (r : Request) :
    (sweepOneRequest now slot acc r).nextId = acc.nextId := by
  unfold sweepOneRequest
  cases r.absenceNoticeId with
  | none => cases r.contactEmail <;> rfl
  | some nid =>
    cases hfn : findNotice (updateRequest acc r.id (fun x =>
        { x with status := RequestStatus.expired })) nid with
    | none => cases r.contactEmail <;> simp only [hfn] <;> rfl
    | some absence => cases r.contactEmail <;> simp only [hfn] <;> rfl

theorem foldl_sweepOne_requests (now : Int) (slot : ClassSlot) :
    ∀ (group : List Request) (acc : Db),
      (group.foldl (sweepOneRequest now slot) acc).requests =
        acc.requests.map (expireIfMem (group.map (fun r => r.id))) := by
  intro group
  induction group with
  | nil =>
    intro acc
    simp only [List.foldl_nil, List.map_nil]
    rw [show acc.requests.map (expireIfMem []) = acc.requests from
      List.map_congr_left (fun r _ => expireIfMem_nil r) |>.trans (List.map_id _)]
  | cons r rest ih =>
    intro acc
    rw [List.foldl_cons, ih, sweepOneRequest_requests]
    rw [map_expireIfMem_comp]
    rfl

theorem foldl_sweepOne_slots (now : Int) (slot : ClassSlot) :
    ∀ (group : List Request) (acc : Db),
      (group.foldl (sweepOneRequest now slot) acc).slots = acc.slots := by
  intro group
  induction group with
  | nil => intro acc; rfl
  | cons r rest ih =>
    intro acc
    rw [List.foldl_cons, ih, sweepOneRequest_slots]

/-- The ids the sweeper expires from one slot group (empty when the group's
slot is missing from the prefetched map). -/
def groupIdsFor (slots0 : List ClassSlot) (expiring : List Request) (sid : Nat) :
    List Nat :=
  if (slots0.find? (fun s => s.id == sid)).isSome then
    ((expiring.filter (fun r => r.toSlotId == sid)).map (fun r => r.id))
  else []

theorem sweepGroup_requests (slots0 : List ClassSlot) (now : Int) (acc : Db)
    (sid : Nat) (expiring : List Request) :
    (sweepGroup slots0 now acc sid (expiring.filter (fun r => r.toSlotId == sid))).requests =
      acc.requests.map (expireIfMem (groupIdsFor slots0 expiring sid)) := by
  unfold sweepGroup groupIdsFor
  cases hf : slots0.find? (fun s => s.id == sid) with
  | none =>
    simp only [hf, Option.isSome_none, Bool.false_eq_true, if_false]
    rw [show acc.requests.map (expireIfMem []) = acc.requests from
      List.map_congr_left (fun r _ => expireIfMem_nil r) |>.trans (List.map_id _)]
  | some slot =>
    simp only [hf, Option.isSome_some, if_true, updateSlot_requests]
    exact foldl_sweepOne_requests now slot _ acc

theorem sweepGroup_slot_ids (slots0 : List ClassSlot) (now : Int) (acc : Db)
    (sid : Nat) (group : List Request) :
    (sweepGroup slots0 now acc sid group).slots.map (fun s => s.id) =
      acc.slots.map (fun s => s.id) := by
  unfold sweepGroup
  cases hf : slots0.find? (fun s => s.id == sid) with
  | none => rfl
  | some slot =>
    simp only [hf]
    rw [updateSlot_ids]
    · rw [foldl_sweepOne_slots]
    · intro s
      rfl

theorem map_expireIfMem_nil (l : List Request) : l.map (expireIfMem []) = l :=
  (List.map_congr_left (fun r _ => expireIfMem_nil r)).trans (List.map_id _)

/-- The ids of the requests the sweeper expires in one run: the matched WAITING
requests whose slot exists in the map prefetched at sweep entry. -/
def sweepExpiredIds (db : Db) (now : Int) : List Nat :=
  ((db.requests.filter (sweepMatched now)).filter
    (fun r => (db.slots.find? (fun s => s.id == r.toSlotId)).isSome)).map
    (fun r => r.id)

theorem foldl_sweepGroups_requests (slots0 : List ClassSlot) (now : Int)
    (expiring : List Request) :
    ∀ (sids : List Nat) (acc : Db),
      ((sids.foldl (fun acc sid =>
          sweepGroup slots0 now acc sid
            (expiring.filter (fun r => r.toSlotId == sid))) acc).requests
        = acc.requests.map
            (expireIfMem ((sids.map (groupIdsFor slots0 expiring)).flatten))) := by
  intro sids
  induction sids with
  | nil =>
    intro acc
    simp only [List.foldl_nil, List.map_nil, List.flatten_nil]
    rw [map_expireIfMem_nil]
  | cons sid rest ih =>
    intro acc
    rw [List.foldl_cons, ih, sweepGroup_requests]
    rw [map_expireIfMem_comp]
    simp only [List.map_cons, List.flatten_cons]

theorem foldl_sweepGroups_slot_ids (slots0 : List ClassSlot) (now : Int)
    (expiring : List Request) :
    ∀ (sids : List Nat) (acc : Db),
      ((sids.foldl (fun acc sid =>
          sweepGroup slots0 now acc sid
            (expiring.filter (fun r => r.toSlotId == sid))) acc).slots.map
          (fun s => s.id)
        = acc.slots.map (fun s => s.id)) := by
  intro sids
  induction sids with
  | nil => intro acc; rfl
  | cons sid rest ih =>
    intro acc
    rw [List.foldl_cons, ih, sweepGroup_slot_ids]

theorem mem_groupIdsFor {slots0 : List ClassSlot} {expiring : List Request}
    {sid : Nat} {x : Nat} :
    x ∈ groupIdsFor slots0 expiring sid ↔
      ((slots0.find? (fun s => s.id == sid)).isSome = true ∧
        ∃ r ∈ expiring, r.toSlotId = sid ∧ r.id = x) := by
  unfold groupIdsFor
  by_cases hf : (slots0.find? (fun s => s.id == sid)).isSome = true
  · simp only [hf, if_true, true_and, List.mem_map, List.mem_filter]
    constructor
    · rintro ⟨r, ⟨hr, hsid⟩, hid⟩
      exact ⟨r, hr, by simpa using hsid, hid⟩
    · rintro ⟨r, hr, hsid, hid⟩
      exact ⟨r, ⟨hr, by simpa using hsid⟩, hid⟩
  · simp [hf]

theorem sweepGroupPass_requests (db : Db) (now : Int) :
    (sweepGroupPass db now).requests =
      db.requests.map (expireIfMem (sweepExpiredIds db now)) := by
  unfold sweepGroupPass
  rw [foldl_sweepGroups_requests]
  refine List.map_congr_left ?_
  intro r _
  refine expireIfMem_congr r ?_
  rw [List.mem_flatten]
  constructor
  · rintro ⟨L, hL, hxL⟩
    obtain ⟨sid, _, rfl⟩ := List.mem_map.mp hL
    obtain ⟨hsome, r2, hr2, hsid, hid⟩ := mem_groupIdsFor.mp hxL
    unfold sweepExpiredIds
    rw [List.mem_map]
    refine ⟨r2, ?_, hid⟩
    rw [List.mem_filter]
    exact ⟨hr2, by rw [hsid]; exact hsome⟩
  · intro hx
    unfold sweepExpiredIds at hx
    obtain ⟨r2, hr2, hid⟩ := List.mem_map.mp hx
    have hr2f := List.mem_filter.mp hr2
    refine ⟨groupIdsFor db.slots (db.requests.filter (sweepMatched now)) r2.toSlotId,
      ?_, ?_⟩
    · rw [List.mem_map]
      refine ⟨r2.toSlotId, ?_, rfl⟩
      rw [mem_uniqueKeys, List.mem_map]
      exact ⟨r2, hr2f.1, rfl⟩
    · rw [mem_groupIdsFor]
      exact ⟨hr2f.2, r2, hr2f.1, rfl, hid⟩

theorem sweepGroupPass_slot_ids (db : Db) (now : Int) :
    (sweepGroupPass db now).slots.map (fun s => s.id) =
      db.slots.map (fun s => s.id) := by
  unfold sweepGroupPass
  rw [foldl_sweepGroups_slot_ids]

/-- Expire a notice row exactly when its id is in the given list. -/
def noticeExpireIfMem (ids : List Nat) (n : AbsenceNotice) : AbsenceNotice :=
  if n.id ∈ ids then expireNoticeRow n else n

theorem noticeExpireIfMem_nil (n : AbsenceNotice) : noticeExpireIfMem [] n = n := rfl

theorem noticeExpireIfMem_comp (A B : List Nat) (n : AbsenceNotice) :
    noticeExpireIfMem B (noticeExpireIfMem A n) = noticeExpireIfMem (A ++ B) n := by
  unfold noticeExpireIfMem expireNoticeRow
  by_cases hA : n.id ∈ A
  · by_cases hB : n.id ∈ B <;> simp [hA, hB]
  · by_cases hB : n.id ∈ B <;> simp [hA, hB]

theorem map_noticeExpireIfMem_nil (l : List AbsenceNotice) :
    l.map (noticeExpireIfMem []) = l :=
  (List.map_congr_left (fun n _ => noticeExpireIfMem_nil n)).trans (List.map_id _)

theorem foldl_expireNotices :
    ∀ (F : List AbsenceNotice) (acc : Db),
      ((F.foldl (fun acc n => updateNotice acc n.id expireNoticeRow) acc).notices
        = acc.notices.map (noticeExpireIfMem (F.map (fun n => n.id)))) := by
  intro F
  induction F with
  | nil =>
    intro acc
    simp only [List.foldl_nil, List.map_nil]
    rw [map_noticeExpireIfMem_nil]
  | cons n rest ih =>
    intro acc
    rw [List.foldl_cons, ih, updateNotice_notices_eq]
    have h1 : acc.notices.map (fun x => if x.id == n.id then expireNoticeRow x else x)
        = acc.notices.map (noticeExpireIfMem [n.id]) := by
      refine List.map_congr_left ?_
      intro x _
      unfold noticeExpireIfMem
      by_cases hx : x.id = n.id <;> simp [hx]
    rw [h1, List.map_map]
    refine List.map_congr_left ?_
    intro x _
    exact noticeExpireIfMem_comp [n.id] (rest.map (fun n => n.id)) x

theorem foldl_expireNotices_requests :
    ∀ (F : List AbsenceNotice) (acc : Db),
      (F.foldl (fun acc n => updateNotice acc n.id expireNoticeRow) acc).requests
        = acc.requests := by
  intro F
  induction F with
  | nil => intro acc; rfl
  | cons n rest ih => intro acc; rw [List.foldl_cons, ih]; rfl

theorem foldl_expireNotices_slots :
    ∀ (F : List AbsenceNotice) (acc : Db),
      (F.foldl (fun acc n => updateNotice acc n.id expireNoticeRow) acc).slots
        = acc.slots := by
  intro F
  induction F with
  | nil => intro acc; rfl
  | cons n rest ih => intro acc; rw [List.foldl_cons, ih]; rfl

theorem foldl_expireNotices_sentEmails :
    ∀ (F : List AbsenceNotice) (acc : Db),
      (F.foldl (fun acc n => updateNotice acc n.id expireNoticeRow) acc).sentEmails
        = acc.sentEmails := by
  intro F
  induction F with
  | nil => intro acc; rfl
  | cons n rest ih => intro acc; rw [List.foldl_cons, ih]; rfl

theorem foldl_expireNotices_nextId :
    ∀ (F : List AbsenceNotice) (acc : Db),
      (F.foldl (fun acc n => updateNotice acc n.id expireNoticeRow) acc).nextId
        = acc.nextId := by
  intro F
  induction F with
  | nil => intro acc; rfl
  | cons n rest ih => intro acc; rw [List.foldl_cons, ih]; rfl

theorem sweepAbsencePass_notices (X : Db) (now : Int) :
    (sweepAbsencePass X now).notices =
      X.notices.map (noticeExpireIfMem
        ((X.notices.filter (isActiveExpired now)).map (fun n => n.id))) := by
  unfold sweepAbsencePass
  rw [foldl_expireNotices]

theorem sweepAbsencePass_requests (X : Db) (now : Int) :
    (sweepAbsencePass X now).requests = X.requests := by
  unfold sweepAbsencePass
  rw [foldl_expireNotices_requests]

theorem sweepAbsencePass_slots (X : Db) (now : Int) :
    (sweepAbsencePass X now).slots = X.slots := by
  unfold sweepAbsencePass
  rw [foldl_expireNotices_slots]

theorem sweepAbsencePass_sentEmails (X : Db) (now : Int) :
    (sweepAbsencePass X now).sentEmails = X.sentEmails := by
  unfold sweepAbsencePass
  rw [foldl_expireNotices_sentEmails]

theorem sweepAbsencePass_nextId (X : Db) (now : Int) :
    (sweepAbsencePass X now).nextId = X.nextId := by
  unfold sweepAbsencePass
  rw [foldl_expireNotices_nextId]

/-- After the absence-deadline phase, no notice is both past its deadline and
still in an active status. -/
theorem sweepAbsencePass_post (X : Db) (now : Int) :
    ∀ n ∈ (sweepAbsencePass X now).notices, isActiveExpired now n = false := by
  intro n hn
  rw [sweepAbsencePass_notices] at hn
  obtain ⟨n0, hn0, rfl⟩ := List.mem_map.mp hn
  by_cases hmem : n0.id ∈ (X.notices.filter (isActiveExpired now)).map (fun n => n.id)
  · unfold noticeExpireIfMem
    rw [if_pos hmem]
    simp [isActiveExpired, expireNoticeRow, ACTIVE_ABSENCE_STATUSES]
  · unfold noticeExpireIfMem
    rw [if_neg hmem]
    by_cases hact : isActiveExpired now n0 = true
    · exfalso
      refine hmem ?_
      rw [List.mem_map]
      exact ⟨n0, List.mem_filter.mpr ⟨hn0, hact⟩, rfl⟩
    · simpa using hact

theorem sweep_requests (db : Db) (now : Int) :
    (sweep db now).requests =
      db.requests.map (expireIfMem (sweepExpiredIds db now)) := by
  unfold sweep
  rw [sweepAbsencePass_requests, sweepGroupPass_requests]

theorem sweep_slot_ids (db : Db) (now : Int) :
    (sweep db now).slots.map (fun s => s.id) = db.slots.map (fun s => s.id) := by
  unfold sweep
  rw [sweepAbsencePass_slots, sweepGroupPass_slot_ids]

theorem mem_sweepExpiredIds {db : Db} {now : Int} {r : Request}
    (hr : r ∈ db.requests) (hm : sweepMatched now r = true)
    (hslot : (db.slots.find? (fun s => s.id == r.toSlotId)).isSome = true) :
    r.id ∈ sweepExpiredIds db now := by
  unfold sweepExpiredIds
  rw [List.mem_map]
  exact ⟨r, List.mem_filter.mpr ⟨List.mem_filter.mpr ⟨hr, hm⟩, hslot⟩, rfl⟩

theorem not_mem_sweepExpiredIds {db : Db} {now : Int} {r : Request}
    (hr : r ∈ db.requests)
    (hnd : (db.requests.map (fun x => x.id)).Nodup)
    (hslot : (db.slots.find? (fun s => s.id == r.toSlotId)).isSome = false) :
    r.id ∉ sweepExpiredIds db now := by
  intro hmem
  unfold sweepExpiredIds at hmem
  obtain ⟨r2, hr2, hid⟩ := List.mem_map.mp hmem
  have hr2f := List.mem_filter.mp hr2
  have hr2m := List.mem_filter.mp hr2f.1
  have : r2 = r := key_inj_of_nodup (fun x => x.id) hnd hr2m.1 hr hid
  rw [this] at hr2f
  rw [hslot] at hr2f
  exact Bool.false_ne_true hr2f.2

theorem findRequest_sweep {db : Db} {now : Int} (rid : Nat) :
    findRequest (sweep db now) rid =
      (findRequest db rid).map (expireIfMem (sweepExpiredIds db now)) := by
  unfold findRequest
  rw [sweep_requests]
  exact find_map_of_pred _ _
    (fun x => by
      unfold expireIfMem
      by_cases hx : x.id ∈ sweepExpiredIds db now <;> simp [hx]) db.requests

/-- Referential integrity of the waitlist: every WAITING request points at an
existing slot.  This holds in every state the service itself can produce
(slots with requests cannot be deleted), and is the hypothesis under which the
sweeper leaves nothing behind. -/
def refIntact (db : Db) : Prop :=
  ∀ r ∈ db.requests, r.status = RequestStatus.waiting →
    (db.slots.find? (fun s => s.id == r.toSlotId)).isSome = true

theorem sweepMatched_waiting {now : Int} {r : Request}
    (h : sweepMatched now r = true) : r.status = RequestStatus.waiting := by
  unfold sweepMatched at h
  simp only [Bool.and_eq_true, decide_eq_true_eq] at h
  exact h.1.1

/-- After one sweep on a referentially intact state, the driving query of the
waitlist-close phase matches nothing. -/
theorem sweep_matched_empty {db : Db} {now : Int} (h : refIntact db) :
    (sweep db now).requests.filter (sweepMatched now) = [] := by
  rw [List.filter_eq_nil_iff]
  intro r' hr'
  rw [sweep_requests] at hr'
  obtain ⟨r0, hr0, rfl⟩ := List.mem_map.mp hr'
  unfold expireIfMem
  by_cases hmem : r0.id ∈ sweepExpiredIds db now
  · rw [if_pos hmem]
    intro hc
    have := sweepMatched_waiting hc
    simp at this
  · rw [if_neg hmem]
    intro hc
    have hw : r0.status = RequestStatus.waiting := sweepMatched_waiting hc
    have hslot := h r0 hr0 hw
    exact hmem (mem_sweepExpiredIds hr0 hc hslot)

/-- After one sweep, the driving query of the absence-deadline phase matches
nothing. -/
theorem sweep_notices_empty (db : Db) (now : Int) :
    (sweep db now).notices.filter (isActiveExpired now) = [] := by
  rw [List.filter_eq_nil_iff]
  intro n hn
  have := sweepAbsencePass_post (sweepGroupPass db now) now n hn
  simp [this]

theorem sweepGroupPass_of_no_match {db : Db} {now : Int}
    (h : db.requests.filter (sweepMatched now) = []) :
    sweepGroupPass db now = db := by
  unfold sweepGroupPass
  rw [h]
  simp only [List.map_nil]
  rfl

theorem sweepAbsencePass_of_no_match {db : Db} {now : Int}
    (h : db.notices.filter (isActiveExpired now) = []) :
    sweepAbsencePass db now = db := by
  unfold sweepAbsencePass
  rw [h]
  rfl

/-- The sweep is idempotent on referentially intact states: the second run
matches no rows at all and hence changes nothing. -/
theorem sweep_sweep {db : Db} {now : Int} (h : refIntact db) :
    sweep (sweep db now) now = sweep db now := by
  have h1 : (sweep db now).requests.filter (sweepMatched now) = [] :=
    sweep_matched_empty h
  have h2 := sweep_notices_empty db now
  show sweepAbsencePass (sweepGroupPass (sweep db now) now) now = sweep db now
  rw [sweepGroupPass_of_no_match h1, sweepAbsencePass_of_no_match h2]

/-! ### Remaining component lemmas for the sweep and the manual close -/

theorem sweepOneRequest_notilength (now : Int) (slot : ClassSlot) (acc : Db)
    (r : Request) :
    (sweepOneRequest now slot acc r).notices.length = acc.notices.length := by
  unfold sweepOneRequest
  cases r.absenceNoticeId with
  | none => cases r.contactEmail <;> rfl
  | some nid =>
    cases hfn : findNotice (updateRequest acc r.id (fun x =>
        { x with status := RequestStatus.expired })) nid with
    | none => cases r.contactEmail <;> simp only [hfn] <;> rfl
    | some absence =>
      cases r.contactEmail <;> simp only [hfn, updateNotice_notices_eq] <;>
        simp [List.length_map]

theorem sweepGroup_nextId (slots0 : List ClassSlot) (now : Int) (acc : Db)
    (sid : Nat) (group : List Request) :
    (sweepGroup slots0 now acc sid group).nextId = acc.nextId := by
  unfold sweepGroup
  cases hf : slots0.find? (fun s => s.id == sid) with
  | none => rfl
  | some slot =>
    simp only [hf, updateSlot_nextId]
    induction group generalizing acc with
    | nil => rfl
    | cons r rest ih =>
      rw [List.foldl_cons, ih, sweepOneRequest_nextId]

theorem foldl_sweepGroups_nextId (slots0 : List ClassSlot) (now : Int)
    (expiring : List Request) :
    ∀ (sids : List Nat) (acc : Db),
      ((sids.foldl (fun acc sid =>
          sweepGroup slots0 now acc sid
            (expiring.filter (fun r => r.toSlotId == sid))) acc).nextId
        = acc.nextId) := by
  intro sids
  induction sids with
  | nil => intro acc; rfl
  | cons sid rest ih =>
    intro acc
    rw [List.foldl_cons, ih, sweepGroup_nextId]

theorem sweepGroupPass_nextId (db : Db) (now : Int) :
    (sweepGroupPass db now).nextId = db.nextId := by
  unfold sweepGroupPass
  rw [foldl_sweepGroups_nextId]

theorem sweep_nextId (db : Db) (now : Int) : (sweep db now).nextId = db.nextId := by
  unfold sweep
  rw [sweepAbsencePass_nextId, sweepGroupPass_nextId]

theorem sweep_request_ids (db : Db) (now : Int) :
    (sweep db now).requests.map (fun r => r.id) =
      db.requests.map (fun r => r.id) := by
  rw [sweep_requests, List.map_map]
  refine List.map_congr_left ?_
  intro r _
  unfold expireIfMem
  by_cases hx : r.id ∈ sweepExpiredIds db now <;> simp [hx]

theorem closeOneRequest_requests (slot : ClassSlot) (acc : Db) (r : Request) :
    (closeOneRequest slot acc r).requests = acc.requests.map (expireIfMem [r.id]) := by
  have h1 : (updateRequest acc r.id (fun x =>
      { x with status := RequestStatus.expired })).requests =
      acc.requests.map (expireIfMem [r.id]) := by
    rw [updateRequest_requests_eq]
    refine List.map_congr_left ?_
    intro x _
    unfold expireIfMem
    by_cases hx : x.id = r.id <;> simp [hx]
  unfold closeOneRequest
  cases r.contactEmail <;> simpa using h1

theorem closeOneRequest_slots (slot : ClassSlot) (acc : Db) (r : Request) :
    (closeOneRequest slot acc r).slots = acc.slots := by
  unfold closeOneRequest
  cases r.contactEmail <;> rfl

theorem closeOneRequest_notices (slot : ClassSlot) (acc : Db) (r : Request) :
    (closeOneRequest slot acc r).notices = acc.notices := by
  unfold closeOneRequest
  cases r.contactEmail <;> rfl

theorem closeOneRequest_nextId (slot : ClassSlot) (acc : Db) (r : Request) :
    (closeOneRequest slot acc r).nextId = acc.nextId := by
  unfold closeOneRequest
  cases r.contactEmail <;> rfl

theorem foldl_closeOne_requests (slot : ClassSlot) :
    ∀ (group : List Request) (acc : Db),
      (group.foldl (closeOneRequest slot) acc).requests =
        acc.requests.map (expireIfMem (group.map (fun r => r.id))) := by
  intro group
  induction group with
  | nil =>
    intro acc
    simp only [List.foldl_nil, List.map_nil]
    rw [map_expireIfMem_nil]
  | cons r rest ih =>
    intro acc
    rw [List.foldl_cons, ih, closeOneRequest_requests, map_expireIfMem_comp]
    rfl

theorem foldl_closeOne_slots (slot : ClassSlot) :
    ∀ (group : List Request) (acc : Db),
      (group.foldl (closeOneRequest slot) acc).slots = acc.slots := by
  intro group
  induction group with
  | nil => intro acc; rfl
  | cons r rest ih =>
    intro acc
    rw [List.foldl_cons, ih, closeOneRequest_slots]

theorem foldl_closeOne_notices (slot : ClassSlot) :
    ∀ (group : List Request) (acc : Db),
      (group.foldl (closeOneRequest slot) acc).notices = acc.notices := by
  intro group
  induction group with
  | nil => intro acc; rfl
  | cons r rest ih =>
    intro acc
    rw [List.foldl_cons, ih, closeOneRequest_notices]

theorem foldl_closeOne_nextId (slot : ClassSlot) :
    ∀ (group : List Request) (acc : Db),
      (group.foldl (closeOneRequest slot) acc).nextId = acc.nextId := by
  intro group
  induction group with
  | nil => intro acc; rfl
  | cons r rest ih =>
    intro acc
    rw [List.foldl_cons, ih, closeOneRequest_nextId]

/-! ### Branch equations for the HTTP handlers -/

/-- The request row created by `POST /api/book`. -/
def bookRow (db : Db) (now : Int) (childName : String) (band : ClassBand)
    (absentDate : Int) (sid : Nat) (s : ClassSlot) : Request :=
  { id := db.nextId, childName := childName, declaredClassBand := band,
    absentDate := absentDate, toSlotId := sid,
    status := RequestStatus.confirmed, contactEmail := none,
    confirmToken := none, declineToken := none,
    toSlotStartDateTime := s.lessonStartDateTime, createdAt := now,
    absenceNoticeId := none }

/-- The request row created by `POST /api/waitlist`. -/
def waitRow (db : Db) (now : Int) (childName : String) (band : ClassBand)
    (absentDate : Int) (sid : Nat) (contactEmail : String) (s : ClassSlot) :
    Request :=
  { id := db.nextId, childName := childName, declaredClassBand := band,
    absentDate := absentDate, toSlotId := sid,
    status := RequestStatus.waiting, contactEmail := some contactEmail,
    confirmToken := none, declineToken := none,
    toSlotStartDateTime := s.lessonStartDateTime, createdAt := now,
    absenceNoticeId := none }

/-- The partial capacity update applied by `POST /admin/update-slot-capacity`. -/
def capacityRow (cc ca cu : Option Int) (s : ClassSlot) : ClassSlot :=
  { s with capacityCurrent := cc.getD s.capacityCurrent,
           capacityMakeupAllowed := ca.getD s.capacityMakeupAllowed,
           capacityMakeupUsed := cu.getD s.capacityMakeupUsed }

theorem book_eq_notFound {db : Db} {now : Int} {childName : String}
    {band : ClassBand} {absentDate : Int} {sid : Nat}
    (h : findSlot db sid = none) :
    book db now childName band absentDate sid = (db, BookOutcome.slotNotFound) := by
  unfold book
  rw [h]

theorem book_eq_mismatch {db : Db} {now : Int} {childName : String}
    {band : ClassBand} {absentDate : Int} {sid : Nat} {s : ClassSlot}
    (h : findSlot db sid = some s) (hband : s.classBand ≠ band) :
    book db now childName band absentDate sid = (db, BookOutcome.bandMismatch) := by
  unfold book
  rw [h]
  simp only [hband, ne_eq, not_false_eq_true, if_true]

theorem book_eq_noCapacity {db : Db} {now : Int} {childName : String}
    {band : ClassBand} {absentDate : Int} {sid : Nat} {s : ClassSlot}
    (h : findSlot db sid = some s) (hband : s.classBand = band)
    (hcap : s.capacityMakeupAllowed - s.capacityMakeupUsed < 1) :
    book db now childName band absentDate sid = (db, BookOutcome.noCapacity) := by
  unfold book
  rw [h]
  simp only [hband, ne_eq, not_true_eq_false, if_false, hcap, if_true]

theorem book_eq_booked {db : Db} {now : Int} {childName : String}
    {band : ClassBand} {absentDate : Int} {sid : Nat} {s : ClassSlot}
    (h : findSlot db sid = some s) (hband : s.classBand = band)
    (hcap : ¬(s.capacityMakeupAllowed - s.capacityMakeupUsed < 1)) :
    book db now childName band absentDate sid =
      (updateSlot { db with
          requests := db.requests ++ [bookRow db now childName band absentDate sid s],
          nextId := db.nextId + 1 } sid
        (fun t => { t with capacityMakeupUsed := t.capacityMakeupUsed + 1 }),
       BookOutcome.booked) := by
  unfold book
  rw [h]
  simp only [hband, ne_eq, not_true_eq_false, if_false, hcap]
  rfl

theorem joinWaitlist_eq_notFound {db : Db} {now : Int} {childName : String}
    {band : ClassBand} {absentDate : Int} {sid : Nat} {contactEmail : String}
    (h : findSlot db sid = none) :
    joinWaitlist db now childName band absentDate sid contactEmail =
      (db, WaitlistOutcome.slotNotFound) := by
  unfold joinWaitlist
  rw [h]

theorem joinWaitlist_eq_mismatch {db : Db} {now : Int} {childName : String}
    {band : ClassBand} {absentDate : Int} {sid : Nat} {contactEmail : String}
    {s : ClassSlot}
    (h : findSlot db sid = some s) (hband : s.classBand ≠ band) :
    joinWaitlist db now childName band absentDate sid contactEmail =
      (db, WaitlistOutcome.bandMismatch) := by
  unfold joinWaitlist
  rw [h]
  simp only [hband, ne_eq, not_false_eq_true, if_true]

theorem joinWaitlist_eq_joined {db : Db} {now : Int} {childName : String}
    {band : ClassBand} {absentDate : Int} {sid : Nat} {contactEmail : String}
    {s : ClassSlot}
    (h : findSlot db sid = some s) (hband : s.classBand = band) :
    joinWaitlist db now childName band absentDate sid contactEmail =
      (updateSlot { db with
          requests := db.requests ++
            [waitRow db now childName band absentDate sid contactEmail s],
          nextId := db.nextId + 1 } sid
        (fun t => { t with waitlistCount := t.waitlistCount + 1 }),
       WaitlistOutcome.joined) := by
  unfold joinWaitlist
  rw [h]
  simp only [hband, ne_eq, not_true_eq_false, if_false]
  rfl

theorem decline_eq_invalid {db : Db} :
    declineByToken db none = (db, DeclineOutcome.invalidToken) := rfl

theorem decline_eq_notFound {db : Db} {token : Nat}
    (h : db.requests.find? (fun x => x.declineToken == some token) = none) :
    declineByToken db (some token) = (db, DeclineOutcome.notFound) := by
  simp only [declineByToken, h]

theorem decline_eq_alreadyProcessed {db : Db} {token : Nat} {request : Request}
    (h : db.requests.find? (fun x => x.declineToken == some token) = some request)
    (hst : request.status ≠ RequestStatus.confirmed) :
    declineByToken db (some token) = (db, DeclineOutcome.alreadyProcessed) := by
  simp only [declineByToken, h]
  simp only [hst, ne_eq, not_false_eq_true, if_true]

theorem decline_eq_ok {db : Db} {token : Nat} {request : Request}
    (h : db.requests.find? (fun x => x.declineToken == some token) = some request)
    (hst : request.status = RequestStatus.confirmed) :
    declineByToken db (some token) =
      ((confirmNextWaiter
          (updateSlot
            (updateRequest db request.id (fun x =>
              { x with status := RequestStatus.declined }))
            request.toSlotId
            (fun t => { t with capacityMakeupUsed := t.capacityMakeupUsed - 1 }))
          request.toSlotId).1,
       DeclineOutcome.declinedOk) := by
  simp only [declineByToken, h]
  simp only [hst, ne_eq, not_true_eq_false, if_false]

theorem updateCapacity_eq_notFound {db : Db} {sid : Nat} {cc ca cu : Option Int}
    (h : findSlot db sid = none) :
    updateSlotCapacity db sid cc ca cu = (db, UpdateCapacityOutcome.slotNotFound) := by
  unfold updateSlotCapacity
  rw [h]

theorem findSlot_updateCapacity {db : Db} {sid : Nat} {cc ca cu : Option Int}
    {s : ClassSlot} (h : findSlot db sid = some s) :
    findSlot (updateSlot db sid (fun t => { t with
      capacityCurrent := cc.getD t.capacityCurrent,
      capacityMakeupAllowed := ca.getD t.capacityMakeupAllowed,
      capacityMakeupUsed := cu.getD t.capacityMakeupUsed })) sid =
      some (capacityRow cc ca cu s) := by
  rw [findSlot_updateSlot]
  · rw [h]
    have hb : (s.id == sid) = true := by
      simp [findSlot_id h]
    simp only [Option.map_some', hb, if_true]
    rfl
  · intro t
    rfl

theorem updateCapacity_eq_promote {db : Db} {sid : Nat} {cc ca cu : Option Int}
    {s : ClassSlot} (h : findSlot db sid = some s)
    (hcond : s.capacityMakeupAllowed - s.capacityMakeupUsed ≤ 0 ∧
      1 ≤ (capacityRow cc ca cu s).capacityMakeupAllowed -
        (capacityRow cc ca cu s).capacityMakeupUsed) :
    updateSlotCapacity db sid cc ca cu =
      ((confirmNextWaiter (updateSlot db sid (fun t => { t with
          capacityCurrent := cc.getD t.capacityCurrent,
          capacityMakeupAllowed := ca.getD t.capacityMakeupAllowed,
          capacityMakeupUsed := cu.getD t.capacityMakeupUsed })) sid).1,
       UpdateCapacityOutcome.updated) := by
  simp only [updateSlotCapacity, h]
  simp only [findSlot_updateCapacity h]
  rw [if_pos hcond]

theorem updateCapacity_eq_noPromote {db : Db} {sid : Nat} {cc ca cu : Option Int}
    {s : ClassSlot} (h : findSlot db sid = some s)
    (hcond : ¬(s.capacityMakeupAllowed - s.capacityMakeupUsed ≤ 0 ∧
      1 ≤ (capacityRow cc ca cu s).capacityMakeupAllowed -
        (capacityRow cc ca cu s).capacityMakeupUsed)) :
    updateSlotCapacity db sid cc ca cu =
      (updateSlot db sid (fun t => { t with
          capacityCurrent := cc.getD t.capacityCurrent,
          capacityMakeupAllowed := ca.getD t.capacityMakeupAllowed,
          capacityMakeupUsed := cu.getD t.capacityMakeupUsed }),
       UpdateCapacityOutcome.updated) := by
  simp only [updateSlotCapacity, h]
  simp only [findSlot_updateCapacity h]
  rw [if_neg hcond]

theorem closeWaitlist_eq_notFound {db : Db} {now : Int} {sid : Nat}
    (h : findSlot db sid = none) :
    closeWaitlist db now sid = (db, CloseOutcome.slotNotFound) := by
  unfold closeWaitlist
  rw [h]

theorem closeWaitlist_eq_tooEarly {db : Db} {now : Int} {sid : Nat} {s : ClassSlot}
    (h : findSlot db sid = some s) (htime : now < s.lessonStartDateTime - 3600) :
    closeWaitlist db now sid = (db, CloseOutcome.tooEarly) := by
  simp only [closeWaitlist, h]
  rw [if_pos htime]

theorem closeWaitlist_eq_closed {db : Db} {now : Int} {sid : Nat} {s : ClassSlot}
    (h : findSlot db sid = some s) (htime : ¬(now < s.lessonStartDateTime - 3600)) :
    closeWaitlist db now sid =
      (updateSlot ((db.requests.filter (isWaitingFor sid)).foldl
          (closeOneRequest s) db) sid
        (fun t => { t with waitlistCount := 0, lastNotifiedRequestId := none }),
       CloseOutcome.closed) := by
  simp only [closeWaitlist, h]
  rw [if_neg htime]

theorem confirmNextWaiter_request_ids (db : Db) (sid : Nat) :
    (confirmNextWaiter db sid).1.requests.map (fun r => r.id) =
      db.requests.map (fun r => r.id) :=
  confirmLoop_request_ids _ db sid

theorem confirmNextWaiter_nextId_le (db : Db) (sid : Nat) :
    db.nextId ≤ (confirmNextWaiter db sid).1.nextId :=
  confirmLoop_nextId_le _ db sid

theorem confirmNextWaiter_notices (db : Db) (sid : Nat) :
    (confirmNextWaiter db sid).1.notices = db.notices :=
  confirmLoop_notices _ db sid

theorem findRequest_confirmNextWaiter_nonwaiting (db : Db) (sid rid : Nat)
    (h : ∀ x ∈ db.requests, x.id = rid → x.status ≠ RequestStatus.waiting) :
    findRequest (confirmNextWaiter db sid).1 rid = findRequest db rid :=
  confirmLoop_preserves_nonwaiting _ db sid rid h

/-! ### Requests created by immediate booking stay inert forever -/

/-- The shape of a request created by `POST /api/book`: already confirmed,
no decline token, no contact address. -/
def inert (r : Request) : Prop :=
  r.status = RequestStatus.confirmed ∧ r.declineToken = none ∧
    r.contactEmail = none

/-- Well-formed id supply: request ids are unique and below the id counter. -/
def wfIds (db : Db) : Prop :=
  (db.requests.map (fun r => r.id)).Nodup ∧ ∀ r ∈ db.requests, r.id < db.nextId

theorem find_append_left {α : Type} {p : α → Bool} {l1 l2 : List α} {a : α}
    (h : l1.find? p = some a) : (l1 ++ l2).find? p = some a := by
  induction l1 with
  | nil => cases h
  | cons x xs ih =>
    by_cases hx : p x
    · rw [List.find?_cons_of_pos _ hx] at h
      rw [List.cons_append, List.find?_cons_of_pos _ hx]
      exact h
    · simp only [Bool.not_eq_true] at hx
      rw [List.find?_cons_of_neg _ (by simp [hx])] at h
      rw [List.cons_append, List.find?_cons_of_neg _ (by simp [hx])]
      exact ih h

theorem wfIds_of_ids_eq {db1 db2 : Db}
    (h : db2.requests.map (fun r => r.id) = db1.requests.map (fun r => r.id))
    (hn : db1.nextId ≤ db2.nextId) (hwf : wfIds db1) : wfIds db2 := by
  constructor
  · rw [h]
    exact hwf.1
  · intro x hx
    have hmem : x.id ∈ db2.requests.map (fun r => r.id) :=
      List.mem_map_of_mem _ hx
    rw [h] at hmem
    obtain ⟨y, hy, hid⟩ := List.mem_map.mp hmem
    have := hwf.2 y hy
    omega

theorem wfIds_append_fresh {db : Db} (req : Request) (hwf : wfIds db)
    (hid : req.id = db.nextId) :
    ∀ k, db.nextId < k →
      wfIds { db with requests := db.requests ++ [req], nextId := k } := by
  intro k hk
  constructor
  · simp only [List.map_append, List.map_cons, List.map_nil]
    rw [List.nodup_append]
    refine ⟨hwf.1, List.nodup_singleton _, ?_⟩
    intro a ha hb
    simp only [List.mem_singleton] at hb
    obtain ⟨x, hx, hxa⟩ := List.mem_map.mp ha
    have := hwf.2 x hx
    omega
  · intro x hx
    simp only [List.mem_append, List.mem_singleton] at hx
    rcases hx with h | h
    · have := hwf.2 x h
      simp only []
      omega
    · subst h
      simp only []
      omega

theorem expireIfMem_id (E : List Nat) (x : Request) : (expireIfMem E x).id = x.id := by
  unfold expireIfMem
  split <;> rfl

theorem map_expireIfMem_ids (E : List Nat) (l : List Request) :
    (l.map (expireIfMem E)).map (fun r => r.id) = l.map (fun r => r.id) := by
  rw [List.map_map]
  exact List.map_congr_left (fun x _ => expireIfMem_id E x)

theorem find_requests_expire {db1 db2 : Db} {E : List Nat}
    (hreq : db1.requests = db2.requests.map (expireIfMem E)) (rid : Nat) :
    findRequest db1 rid = (findRequest db2 rid).map (expireIfMem E) := by
  unfold findRequest
  rw [hreq]
  exact find_map_of_pred _ _
    (fun x => by rw [show (expireIfMem E x).id = x.id from expireIfMem_id E x])
    db2.requests

/-- One service operation preserves the id discipline and leaves an inert
(directly booked) request row completely untouched. -/
theorem applyOp_inert (op : AppOp) (db : Db) (r : Request)
    (hwf : wfIds db) (hfind : findRequest db r.id = some r) (hinert : inert r) :
    wfIds (applyOp db op) ∧ findRequest (applyOp db op) r.id = some r := by
  have hrmem : r ∈ db.requests := findRequest_mem hfind
  have hnowait : ∀ x ∈ db.requests, x.id = r.id →
      x.status ≠ RequestStatus.waiting := by
    intro x hx hxid
    have : x = r := key_inj_of_nodup (fun t => t.id) hwf.1 hx hrmem hxid
    rw [this, hinert.1]
    intro hc
    cases hc
  cases op with
  | opBook now childName band absentDate sid =>
    show wfIds (book db now childName band absentDate sid).1 ∧
      findRequest (book db now childName band absentDate sid).1 r.id = some r
    cases hs : findSlot db sid with
    | none =>
      rw [book_eq_notFound hs]
      exact ⟨hwf, hfind⟩
    | some slot =>
      by_cases hband : slot.classBand = band
      · by_cases hcap : slot.capacityMakeupAllowed - slot.capacityMakeupUsed < 1
        · rw [book_eq_noCapacity hs hband hcap]
          exact ⟨hwf, hfind⟩
        · rw [book_eq_booked hs hband hcap]
          exact ⟨wfIds_append_fresh _ hwf rfl (db.nextId + 1) (by omega),
            find_append_left hfind⟩
      · rw [book_eq_mismatch hs hband]
        exact ⟨hwf, hfind⟩
  | opWaitlist now childName band absentDate sid contactEmail =>
    show wfIds (joinWaitlist db now childName band absentDate sid contactEmail).1 ∧
      findRequest (joinWaitlist db now childName band absentDate sid
        contactEmail).1 r.id = some r
    cases hs : findSlot db sid with
    | none =>
      rw [joinWaitlist_eq_notFound hs]
      exact ⟨hwf, hfind⟩
    | some slot =>
      by_cases hband : slot.classBand = band
      · rw [joinWaitlist_eq_joined hs hband]
        exact ⟨wfIds_append_fresh _ hwf rfl (db.nextId + 1) (by omega),
          find_append_left hfind⟩
      · rw [joinWaitlist_eq_mismatch hs hband]
        exact ⟨hwf, hfind⟩
  | opDecline token? =>
    show wfIds (declineByToken db token?).1 ∧
      findRequest (declineByToken db token?).1 r.id = some r
    cases token? with
    | none =>
      rw [decline_eq_invalid]
      exact ⟨hwf, hfind⟩
    | some token =>
      cases hfq : db.requests.find? (fun x => x.declineToken == some token) with
      | none =>
        rw [decline_eq_notFound hfq]
        exact ⟨hwf, hfind⟩
      | some request =>
        by_cases hst : request.status = RequestStatus.confirmed
        · rw [decline_eq_ok hfq hst]
          dsimp only
          have hreqmem : request ∈ db.requests := List.mem_of_find?_eq_some hfq
          have hrne : request.id ≠ r.id := by
            intro hc
            have hqr : request = r :=
              key_inj_of_nodup (fun t => t.id) hwf.1 hreqmem hrmem hc
            have htok := List.find?_some hfq
            rw [hqr, hinert.2.1] at htok
            simp at htok
          have hfind2 : findRequest (updateSlot
              (updateRequest db request.id (fun x =>
                { x with status := RequestStatus.declined })) request.toSlotId
              (fun t => { t with capacityMakeupUsed := t.capacityMakeupUsed - 1 }))
              r.id = some r := by
            show findRequest (updateRequest db request.id (fun x =>
              { x with status := RequestStatus.declined })) r.id = some r
            rw [findRequest_updateRequest]
            case hf => intro x; rfl
            rw [hfind]
            have hb : (r.id == request.id) = false := by
              simp only [beq_eq_false_iff_ne, ne_eq]
              intro hb
              exact hrne hb.symm
            simp only [Option.map_some', hb, Bool.false_eq_true, if_false]
          have hprop2 : ∀ x ∈ (updateSlot
              (updateRequest db request.id (fun x =>
                { x with status := RequestStatus.declined })) request.toSlotId
              (fun t => { t with capacityMakeupUsed := t.capacityMakeupUsed - 1 })).requests,
              x.id = r.id → x.status ≠ RequestStatus.waiting := by
            intro x hx hxid
            rw [updateSlot_requests, updateRequest_requests_eq] at hx
            obtain ⟨x0, hx0, hgx⟩ := List.mem_map.mp hx
            by_cases hc : (x0.id == request.id) = true
            · rw [if_pos hc] at hgx
              rw [← hgx]
              intro hw
              cases hw
            · rw [if_neg hc] at hgx
              subst hgx
              exact hnowait x0 hx0 hxid
          have hids2 : (updateSlot
              (updateRequest db request.id (fun x =>
                { x with status := RequestStatus.declined })) request.toSlotId
              (fun t => { t with capacityMakeupUsed := t.capacityMakeupUsed - 1 })).requests.map
              (fun t => t.id) = db.requests.map (fun t => t.id) := by
            rw [updateSlot_requests]
            exact updateRequest_ids db request.id _ (fun x => rfl)
          constructor
          · refine wfIds_of_ids_eq ?_ ?_ hwf
            · rw [confirmNextWaiter_request_ids]
              exact hids2
            · refine le_trans ?_ (confirmNextWaiter_nextId_le _ _)
              exact le_of_eq rfl
          · rw [findRequest_confirmNextWaiter_nonwaiting _ _ _ hprop2]
            exact hfind2
        · rw [decline_eq_alreadyProcessed hfq hst]
          exact ⟨hwf, hfind⟩
  | opAdjustCapacity sid cc ca cu =>
    show wfIds (updateSlotCapacity db sid cc ca cu).1 ∧
      findRequest (updateSlotCapacity db sid cc ca cu).1 r.id = some r
    cases hs : findSlot db sid with
    | none =>
      rw [updateCapacity_eq_notFound hs]
      exact ⟨hwf, hfind⟩
    | some slot =>
      by_cases hcond : slot.capacityMakeupAllowed - slot.capacityMakeupUsed ≤ 0 ∧
          1 ≤ (capacityRow cc ca cu slot).capacityMakeupAllowed -
            (capacityRow cc ca cu slot).capacityMakeupUsed
      · rw [updateCapacity_eq_promote hs hcond]
        dsimp only
        constructor
        · refine wfIds_of_ids_eq ?_ ?_ hwf
          · rw [confirmNextWaiter_request_ids]
            rfl
          · refine le_trans ?_ (confirmNextWaiter_nextId_le _ _)
            exact le_of_eq rfl
        · rw [findRequest_confirmNextWaiter_nonwaiting]
          · exact hfind
          · exact hnowait
      · rw [updateCapacity_eq_noPromote hs hcond]
        exact ⟨hwf, hfind⟩
  | opCloseWaitlist now sid =>
    show wfIds (closeWaitlist db now sid).1 ∧
      findRequest (closeWaitlist db now sid).1 r.id = some r
    cases hs : findSlot db sid with
    | none =>
      rw [closeWaitlist_eq_notFound hs]
      exact ⟨hwf, hfind⟩
    | some slot =>
      by_cases htime : now < slot.lessonStartDateTime - 3600
      · rw [closeWaitlist_eq_tooEarly hs htime]
        exact ⟨hwf, hfind⟩
      · rw [closeWaitlist_eq_closed hs htime]
        have hreq1 := foldl_closeOne_requests slot
          (db.requests.filter (isWaitingFor sid)) db
        have hnotmem : r.id ∉
            (db.requests.filter (isWaitingFor sid)).map (fun t => t.id) := by
          intro hmem
          obtain ⟨w, hw, hwid⟩ := List.mem_map.mp hmem
          have hwmem := (List.mem_filter.mp hw).1
          have hweq : w = r :=
            key_inj_of_nodup (fun t => t.id) hwf.1 hwmem hrmem hwid
          have hws := (List.mem_filter.mp hw).2
          unfold isWaitingFor at hws
          rw [hweq, hinert.1] at hws
          simp at hws
        constructor
        · refine wfIds_of_ids_eq ?_ ?_ hwf
          · show ((db.requests.filter (isWaitingFor sid)).foldl
                (closeOneRequest slot) db).requests.map (fun t => t.id) = _
            rw [hreq1, map_expireIfMem_ids]
          · show db.nextId ≤ ((db.requests.filter (isWaitingFor sid)).foldl
                (closeOneRequest slot) db).nextId
            rw [foldl_closeOne_nextId]
        · show findRequest ((db.requests.filter (isWaitingFor sid)).foldl
              (closeOneRequest slot) db) r.id = some r
          rw [find_requests_expire hreq1, hfind]
          simp only [Option.map_some']
          unfold expireIfMem
          rw [if_neg hnotmem]
  | opSweep now =>
    show wfIds (sweep db now) ∧ findRequest (sweep db now) r.id = some r
    constructor
    · refine wfIds_of_ids_eq ?_ ?_ hwf
      · exact sweep_request_ids db now
      · exact le_of_eq (sweep_nextId db now).symm
    · rw [findRequest_sweep, hfind]
      have hnot : r.id ∉ sweepExpiredIds db now := by
        intro hmem
        unfold sweepExpiredIds at hmem
        obtain ⟨r2, hr2, hid⟩ := List.mem_map.mp hmem
        have hr2f := List.mem_filter.mp hr2
        have hr2m := List.mem_filter.mp hr2f.1
        exact hnowait r2 hr2m.1 hid (sweepMatched_waiting hr2m.2)
      simp only [Option.map_some']
      unfold expireIfMem
      rw [if_neg hnot]

/-- Any sequence of service operations leaves an inert (directly booked)
request row untouched. -/
theorem applyOps_inert (ops : List AppOp) :
    ∀ (db : Db) (r : Request), wfIds db → findRequest db r.id = some r →
      inert r →
      wfIds (ops.foldl applyOp db) ∧
        findRequest (ops.foldl applyOp db) r.id = some r := by
  induction ops with
  | nil => intro db r hwf hfind _; exact ⟨hwf, hfind⟩
  | cons op rest ih =>
    intro db r hwf hfind hinert
    rw [List.foldl_cons]
    obtain ⟨hwf1, hfind1⟩ := applyOp_inert op db r hwf hfind hinert
    exact ih (applyOp db op) r hwf1 hfind1 hinert

/-! ### The claims -/

/-- Fixture slot for the C4 counterexample: one unit of remaining capacity. -/
def slotFixtureA : ClassSlot :=
  { id := 0, classBand := ClassBand.beginner, courseLabel := "c",
    startTime := "10:00", capacityLimit := 10, capacityCurrent := 5,
    capacityMakeupAllowed := 1, capacityMakeupUsed := 0, waitlistCount := 1,
    lessonStartDateTime := 1000, lastNotifiedRequestId := none }

/-- Fixture request for the C4 counterexample: waiting, references notice 9. -/
def requestFixtureA : Request :=
  { id := 1, childName := "k", declaredClassBand := ClassBand.beginner,
    absentDate := 0, toSlotId := 0, status := RequestStatus.waiting,
    contactEmail := none, confirmToken := none, declineToken := none,
    toSlotStartDateTime := 1000, createdAt := 5, absenceNoticeId := some 9 }

/-- Fixture notice for the C4 counterexample: still in status WAITING. -/
def noticeFixtureA : AbsenceNotice :=
  { id := 9, makeupDeadline := 2000, makeupStatus := NoticeStatus.waiting,
    makeupSlotId := none }

/-- Fixture database for the C4 counterexample. -/
def dbFixtureA : Db :=
  { slots := [slotFixtureA], requests := [requestFixtureA],
    notices := [noticeFixtureA], sentEmails := [], nextId := 100 }

/-- C4 (counterexample): the claim says the promotion engine transitions a
promoted request's absence notice to MAKEUP_CONFIRMED and records the makeup
slot.  In `dbFixtureA`, slot 0 has one unit of remaining capacity and one
WAITING request (id 1) that references absence notice 9, which is in status
WAITING; running `confirmNextWaiter` confirms the request but leaves notice 9
with status WAITING (not MAKEUP_CONFIRMED) and with no makeup slot recorded. -/
theorem confirmNextWaiter_ignores_notice_counterexample :
    (findRequest (confirmNextWaiter dbFixtureA 0).1 1).map (fun r => r.status) =
        some RequestStatus.confirmed
    ∧ (findNotice (confirmNextWaiter dbFixtureA 0).1 9).map
        (fun n => (n.makeupStatus, n.makeupSlotId)) =
      some (NoticeStatus.waiting, none) := by
  exact ⟨by decide, by decide⟩

/-- C4 (amended): the promotion engine `confirmNextWaiter` never touches the
AbsenceNotice table at all — in particular it does not set MAKEUP_CONFIRMED
and does not record the chosen makeup slot on any notice. -/
theorem confirmNextWaiter_preserves_notices (db : Db) (sid : Nat) :
    (confirmNextWaiter db sid).1.notices = db.notices :=
  confirmNextWaiter_notices db sid

/-- Fixture slot for the C5 counterexample: its lesson starts at time 999999,
far outside the sweep window for `now = 100`. -/
def slotFixtureB : ClassSlot :=
  { id := 5, classBand := ClassBand.beginner, courseLabel := "c",
    startTime := "10:00", capacityLimit := 10, capacityCurrent := 5,
    capacityMakeupAllowed := 2, capacityMakeupUsed := 0, waitlistCount := 1,
    lessonStartDateTime := 999999, lastNotifiedRequestId := none }

/-- Fixture request for the C5 counterexample: WAITING, with a drifted
denormalized start-time copy (150) that lies inside the sweep window. -/
def requestFixtureB : Request :=
  { id := 7, childName := "k", declaredClassBand := ClassBand.beginner,
    absentDate := 0, toSlotId := 5, status := RequestStatus.waiting,
    contactEmail := none, confirmToken := none, declineToken := none,
    toSlotStartDateTime := 150, createdAt := 1, absenceNoticeId := none }

/-- Fixture database for the C5 counterexample and witness. -/
def dbFixtureB : Db :=
  { slots := [slotFixtureB], requests := [requestFixtureB], notices := [],
    sentEmails := [], nextId := 0 }

/-- C5 (counterexample): the claim says the sweeper re-checks each group's
slot's lesson start time before expiring and skips the slot when the re-check
fails.  In `dbFixtureB`, the slot's `lessonStartDateTime` (999999) is not
within one hour of `now = 100`, yet because the request's denormalized
`toSlotStartDateTime` is 150, the sweeper expires the request anyway: there
is no start-time re-check in the code, only a slot-existence check. -/
theorem sweep_no_time_recheck_counterexample :
    (findRequest (sweep dbFixtureB 100) 7).map (fun r => r.status) =
        some RequestStatus.expired
    ∧ ¬((100 : Int) ≤ slotFixtureB.lessonStartDateTime ∧
        slotFixtureB.lessonStartDateTime ≤ 100 + 3600) := by
  exact ⟨by decide, by decide⟩

/-- C5 (amended): the only per-group re-check the sweeper performs is slot
existence.  For every request selected by the driving query (WAITING with
denormalized slot start time inside `[now, now+3600]`): if its slot exists in
the map prefetched at sweep entry, the request is set to EXPIRED — regardless
of the slot's actual lesson start time; if the slot is missing, the group is
skipped and the request row is left completely unchanged. -/
theorem sweep_slot_existence_recheck (db : Db) (now : Int) (r : Request)
    (hr : r ∈ db.requests)
    (hnd : (db.requests.map (fun x => x.id)).Nodup)
    (hm : sweepMatched now r = true) :
    ((db.slots.find? (fun s => s.id == r.toSlotId)).isSome = true →
      findRequest (sweep db now) r.id =
        some { r with status := RequestStatus.expired })
    ∧ ((db.slots.find? (fun s => s.id == r.toSlotId)).isSome = false →
      findRequest (sweep db now) r.id = some r) := by
  have hfind : findRequest db r.id = some r := by
    unfold findRequest
    exact find_key_of_mem (fun x => x.id) hnd hr
  constructor
  · intro hslot
    rw [findRequest_sweep, hfind]
    have hmem := mem_sweepExpiredIds hr hm hslot
    simp only [Option.map_some']
    unfold expireIfMem
    rw [if_pos hmem]
  · intro hslot
    rw [findRequest_sweep, hfind]
    have hmem := @not_mem_sweepExpiredIds db now r hr hnd hslot
    simp only [Option.map_some']
    unfold expireIfMem
    rw [if_neg hmem]

/-- Witness for `sweep_slot_existence_recheck` at the concrete state
`dbFixtureB`: the matched request's slot exists, so it is expired. -/
theorem sweep_slot_existence_recheck_witness :
    requestFixtureB ∈ dbFixtureB.requests
    ∧ findRequest (sweep dbFixtureB 100) 7 =
        some { requestFixtureB with status := RequestStatus.expired } := by
  refine ⟨by decide, ?_⟩
  exact (sweep_slot_existence_recheck dbFixtureB 100 requestFixtureB (by decide)
    (by decide) (by decide)).1 (by decide)

/-- C6: sweep idempotence.  On a referentially intact state (every WAITING
request points at an existing slot — which the service's own handlers
guarantee, since slots with requests cannot be deleted), running the expiry
sweep twice with the same `now` yields exactly the state of running it once;
moreover the second run's driving queries match no rows: after one sweep no
request is WAITING inside the window, and no absence notice is both past its
deadline and still active. -/
theorem sweep_idempotent (db : Db) (now : Int) (h : refIntact db) :
    sweep (sweep db now) now = sweep db now
    ∧ (sweep db now).requests.filter (sweepMatched now) = []
    ∧ (sweep db now).notices.filter (isActiveExpired now) = [] :=
  ⟨sweep_sweep h, sweep_matched_empty h, sweep_notices_empty db now⟩

/-- Witness for `sweep_idempotent` on the concrete state `dbFixtureB`. -/
theorem sweep_idempotent_witness :
    refIntact dbFixtureB
    ∧ (sweep (sweep dbFixtureB 100) 100 = sweep dbFixtureB 100
      ∧ (sweep dbFixtureB 100).requests.filter (sweepMatched 100) = []
      ∧ (sweep dbFixtureB 100).notices.filter (isActiveExpired 100) = []) := by
  have h : refIntact dbFixtureB := by
    intro r hr hw
    simp only [dbFixtureB, List.mem_singleton] at hr
    subst hr
    decide
  exact ⟨h, sweep_idempotent dbFixtureB 100 h⟩

/-- C7: the promotion loop terminates and is bounded.  With the cached
`waitlistCount` in sync with the actual number of WAITING requests (the data
model's documented invariant), the number of promotions performed by
`confirmNextWaiter` is at most `min(remaining-at-start, waitlistCount-at-start)`;
and every fuel budget at least as large as the remaining capacity produces the
same result as `confirmNextWaiter`, which captures termination of the
unbounded `while (true)` loop of the source. -/
theorem confirmNextWaiter_bounded (db : Db) (sid : Nat) (s : ClassSlot)
    (hs : findSlot db sid = some s)
    (hsync : s.waitlistCount = ((waitingFor db sid).length : Int)) :
    (confirmNextWaiter db sid).2.length ≤
      min (s.capacityMakeupAllowed - s.capacityMakeupUsed).toNat
        s.waitlistCount.toNat
    ∧ (∀ fuel, slotRemainingFuel db sid ≤ fuel →
        confirmLoop fuel db sid = confirmNextWaiter db sid) := by
  constructor
  · have h2 : s.waitlistCount.toNat = (waitingFor db sid).length := by
      rw [hsync]
      exact Int.toNat_natCast _
    calc (confirmNextWaiter db sid).2.length
        = (confirmLoop (slotRemainingFuel db sid) db sid).2.length := rfl
      _ ≤ min (slotRemainingFuel db sid) (waitingFor db sid).length :=
          confirmLoop_length_le _ db sid
      _ = min (s.capacityMakeupAllowed - s.capacityMakeupUsed).toNat
            s.waitlistCount.toNat := by
          rw [slotRemainingFuel_eq_some hs, h2]
  · intro fuel hfuel
    exact confirmLoop_fuel_stable fuel db sid (slotRemainingFuel db sid) hfuel
      (Nat.le_refl _)

/-- Witness for `confirmNextWaiter_bounded` on `dbFixtureA` (remaining 1,
one waiter), also instantiating the fuel-stability conjunct at fuel 5. -/
theorem confirmNextWaiter_bounded_witness :
    findSlot dbFixtureA 0 = some slotFixtureA
    ∧ slotFixtureA.waitlistCount = ((waitingFor dbFixtureA 0).length : Int)
    ∧ (confirmNextWaiter dbFixtureA 0).2.length ≤
        min (slotFixtureA.capacityMakeupAllowed -
          slotFixtureA.capacityMakeupUsed).toNat slotFixtureA.waitlistCount.toNat
    ∧ confirmLoop 5 dbFixtureA 0 = confirmNextWaiter dbFixtureA 0 := by
  refine ⟨by decide, by decide, ?_, ?_⟩
  · exact (confirmNextWaiter_bounded dbFixtureA 0 slotFixtureA (by decide)
      (by decide)).1
  · exact (confirmNextWaiter_bounded dbFixtureA 0 slotFixtureA (by decide)
      (by decide)).2 5 (by decide)

theorem find_append_right {α : Type} {p : α → Bool} {l1 l2 : List α}
    (h : l1.find? p = none) : (l1 ++ l2).find? p = l2.find? p := by
  induction l1 with
  | nil => rfl
  | cons x xs ih =>
    rw [List.find?_cons] at h
    cases hx : p x with
    | true => rw [hx] at h; cases h
    | false =>
      rw [hx] at h
      rw [List.cons_append, List.find?_cons, hx]
      exact ih h

theorem findRequest_fresh {db : Db} (hwf : wfIds db) :
    db.requests.find? (fun x => x.id == db.nextId) = none := by
  rw [List.find?_eq_none]
  intro x hx
  have := hwf.2 x hx
  simp only [beq_iff_eq]
  omega

/-- C10: the waitlist-join handler performs no capacity check.  It fails only
on an unknown slot id or a class-band mismatch; whenever the slot exists and
the band matches it succeeds — creating a WAITING request and incrementing the
cached waitlist counter — even when the slot still has remaining capacity
(no hypothesis below mentions capacity at all). -/
theorem joinWaitlist_no_capacity_check (db : Db) (now : Int) (childName : String)
    (band : ClassBand) (absentDate : Int) (sid : Nat) (contactEmail : String) :
    (findSlot db sid = none →
      joinWaitlist db now childName band absentDate sid contactEmail =
        (db, WaitlistOutcome.slotNotFound))
    ∧ (∀ s, findSlot db sid = some s → s.classBand ≠ band →
      joinWaitlist db now childName band absentDate sid contactEmail =
        (db, WaitlistOutcome.bandMismatch))
    ∧ (∀ s, findSlot db sid = some s → s.classBand = band →
      (joinWaitlist db now childName band absentDate sid contactEmail).2 =
          WaitlistOutcome.joined
      ∧ (joinWaitlist db now childName band absentDate sid contactEmail).1.requests =
          db.requests ++ [waitRow db now childName band absentDate sid contactEmail s]
      ∧ (waitRow db now childName band absentDate sid contactEmail s).status =
          RequestStatus.waiting
      ∧ findSlot (joinWaitlist db now childName band absentDate sid
            contactEmail).1 sid =
          some { s with waitlistCount := s.waitlistCount + 1 }) := by
  refine ⟨fun h => joinWaitlist_eq_notFound h,
    fun s hs hband => joinWaitlist_eq_mismatch hs hband,
    fun s hs hband => ?_⟩
  rw [joinWaitlist_eq_joined hs hband]
  refine ⟨rfl, rfl, rfl, ?_⟩
  rw [findSlot_updateSlot]
  · show (findSlot db sid).map _ = _
    rw [hs]
    have hb : (s.id == sid) = true := by
      simp [findSlot_id hs]
    simp only [Option.map_some', hb, if_true]
  · intro t
    rfl

/-- Witness for `joinWaitlist_no_capacity_check` on `dbFixtureA`, whose slot
has remaining capacity 1 ≥ 1 (an "open" slot): the join still succeeds. -/
theorem joinWaitlist_no_capacity_check_witness :
    findSlot dbFixtureA 0 = some slotFixtureA
    ∧ slotFixtureA.classBand = ClassBand.beginner
    ∧ 1 ≤ slotFixtureA.capacityMakeupAllowed - slotFixtureA.capacityMakeupUsed
    ∧ ((joinWaitlist dbFixtureA 50 "k" ClassBand.beginner 0 0 "p@q").2 =
          WaitlistOutcome.joined
      ∧ (joinWaitlist dbFixtureA 50 "k" ClassBand.beginner 0 0 "p@q").1.requests =
          dbFixtureA.requests ++
            [waitRow dbFixtureA 50 "k" ClassBand.beginner 0 0 "p@q" slotFixtureA]
      ∧ (waitRow dbFixtureA 50 "k" ClassBand.beginner 0 0 "p@q" slotFixtureA).status =
          RequestStatus.waiting
      ∧ findSlot (joinWaitlist dbFixtureA 50 "k" ClassBand.beginner 0 0 "p@q").1 0 =
          some { slotFixtureA with
            waitlistCount := slotFixtureA.waitlistCount + 1 }) := by
  refine ⟨by decide, by decide, by decide, ?_⟩
  exact (joinWaitlist_no_capacity_check dbFixtureA 50 "k" ClassBand.beginner 0 0
    "p@q").2.2 slotFixtureA (by decide) (by decide)

/-- C9: every request created by the immediate-booking handler is CONFIRMED
with no decline token and no contact email; the decline-by-token lookup can
never return it (tokens are compared with `== some token`, and its token is
`none`); and along every sequence of service operations its row stays exactly
as created — in particular it never becomes WAITING, never receives a decline
token, and, having no contact address, can never be sent a confirmation
notification (all notifications go to a request's `contactEmail`). -/
theorem book_creates_inert_request (db : Db) (now : Int) (childName : String)
    (band : ClassBand) (absentDate : Int) (sid : Nat) (s : ClassSlot)
    (hwf : wfIds db) (hs : findSlot db sid = some s) (hband : s.classBand = band)
    (hcap : ¬(s.capacityMakeupAllowed - s.capacityMakeupUsed < 1)) :
    (book db now childName band absentDate sid).2 = BookOutcome.booked
    ∧ (book db now childName band absentDate sid).1.requests =
        db.requests ++ [bookRow db now childName band absentDate sid s]
    ∧ (bookRow db now childName band absentDate sid s).status =
        RequestStatus.confirmed
    ∧ (bookRow db now childName band absentDate sid s).declineToken = none
    ∧ (bookRow db now childName band absentDate sid s).contactEmail = none
    ∧ (book db now childName band absentDate sid).1.sentEmails = db.sentEmails
    ∧ (∀ ops : List AppOp,
        findRequest (ops.foldl applyOp (book db now childName band absentDate
            sid).1) (bookRow db now childName band absentDate sid s).id =
          some (bookRow db now childName band absentDate sid s))
    ∧ (∀ ops : List AppOp, ∀ token : Nat, ∀ r2,
        (ops.foldl applyOp (book db now childName band absentDate
            sid).1).requests.find? (fun x => x.declineToken == some token) =
          some r2 →
        r2.id ≠ (bookRow db now childName band absentDate sid s).id) := by
  rw [book_eq_booked hs hband hcap]
  have hfreshfind : findRequest (updateSlot { db with
      requests := db.requests ++ [bookRow db now childName band absentDate sid s],
      nextId := db.nextId + 1 } sid
      (fun t => { t with capacityMakeupUsed := t.capacityMakeupUsed + 1 }))
      (bookRow db now childName band absentDate sid s).id =
      some (bookRow db now childName band absentDate sid s) := by
    show (db.requests ++ [bookRow db now childName band absentDate sid s]).find?
      (fun x => x.id == db.nextId) = some (bookRow db now childName band
        absentDate sid s)
    rw [find_append_right (findRequest_fresh hwf)]
    simp [List.find?, bookRow]
  have hwf1 : wfIds (updateSlot { db with
      requests := db.requests ++ [bookRow db now childName band absentDate sid s],
      nextId := db.nextId + 1 } sid
      (fun t => { t with capacityMakeupUsed := t.capacityMakeupUsed + 1 })) :=
    wfIds_append_fresh _ hwf rfl (db.nextId + 1) (by omega)
  have hinert : inert (bookRow db now childName band absentDate sid s) :=
    ⟨rfl, rfl, rfl⟩
  have hkeep := fun ops => applyOps_inert ops _ _ hwf1 hfreshfind hinert
  refine ⟨rfl, rfl, rfl, rfl, rfl, rfl, fun ops => (hkeep ops).2, ?_⟩
  intro ops token r2 hfound
  obtain ⟨hwf2, _⟩ := hkeep ops
  intro hid
  have hr2mem : r2 ∈ (ops.foldl applyOp _).requests :=
    List.mem_of_find?_eq_some hfound
  have hrowmem : bookRow db now childName band absentDate sid s ∈
      (ops.foldl applyOp _).requests :=
    findRequest_mem (hkeep ops).2
  have hr2eq : r2 = bookRow db now childName band absentDate sid s :=
    key_inj_of_nodup (fun t => t.id) hwf2.1 hr2mem hrowmem hid
  have htok := List.find?_some hfound
  rw [hr2eq] at htok
  simp [bookRow] at htok

/-- Witness for `book_creates_inert_request` on `dbFixtureA`, with the split
conjuncts instantiated, the operation-sequence conjuncts applied to a sample
sequence (a sweep, a decline attempt with the fresh request's id as token, and
a capacity edit), and the decline-lookup conjunct observed vacuous. -/
theorem book_creates_inert_request_witness :
    findSlot dbFixtureA 0 = some slotFixtureA
    ∧ slotFixtureA.classBand = ClassBand.beginner
    ∧ ¬(slotFixtureA.capacityMakeupAllowed - slotFixtureA.capacityMakeupUsed < 1)
    ∧ (book dbFixtureA 50 "k" ClassBand.beginner 0 0).2 = BookOutcome.booked
    ∧ findRequest ([AppOp.opSweep 2000, AppOp.opDecline (some 100),
          AppOp.opAdjustCapacity 0 none (some 5) none].foldl applyOp
            (book dbFixtureA 50 "k" ClassBand.beginner 0 0).1)
        (bookRow dbFixtureA 50 "k" ClassBand.beginner 0 0 slotFixtureA).id =
      some (bookRow dbFixtureA 50 "k" ClassBand.beginner 0 0 slotFixtureA) := by
  have hwf : wfIds dbFixtureA := by
    constructor
    · decide
    · intro r hr
      simp only [dbFixtureA, List.mem_singleton] at hr
      subst hr
      decide
  have h := book_creates_inert_request dbFixtureA 50 "k" ClassBand.beginner 0 0
    slotFixtureA hwf (by decide) (by decide) (by decide)
  exact ⟨by decide, by decide, by decide, h.1,
    h.2.2.2.2.2.2.1 [AppOp.opSweep 2000, AppOp.opDecline (some 100),
      AppOp.opAdjustCapacity 0 none (some 5) none]⟩

/-- C1: strict FIFO promotion.  For a slot with remaining capacity exactly `k`
at entry (`makeupAllowed - makeupUsed = k`), with at most as many units as
there are waiting requests, and with pairwise-distinct creation timestamps on
the waitlist, the promotion engine confirms exactly `k` requests; they all
come from the slot's waitlist, their creation timestamps are strictly
increasing along the promotion order, every waiter left behind was created
later than every promoted one (so the promoted ones are exactly the `k`
oldest), and each promoted request ends CONFIRMED with a fresh decline
token. -/
theorem confirmNextWaiter_fifo (db : Db) (sid : Nat) (s : ClassSlot) (k : Nat)
    (hs : findSlot db sid = some s)
    (hnd : (db.requests.map (fun r => r.id)).Nodup)
    (hdist : ((waitingFor db sid).map (fun r => r.createdAt)).Nodup)
    (hk : s.capacityMakeupAllowed - s.capacityMakeupUsed = (k : Int))
    (hkN : k ≤ (waitingFor db sid).length) :
    (confirmNextWaiter db sid).2.length = k
    ∧ (∀ t ∈ (confirmNextWaiter db sid).2, t ∈ waitingFor db sid)
    ∧ List.Pairwise (fun a b => a.createdAt < b.createdAt)
        (confirmNextWaiter db sid).2
    ∧ (∀ w ∈ waitingFor db sid, w ∉ (confirmNextWaiter db sid).2 →
        ∀ t ∈ (confirmNextWaiter db sid).2, t.createdAt < w.createdAt)
    ∧ (∀ t ∈ (confirmNextWaiter db sid).2, ∃ tok,
        findRequest (confirmNextWaiter db sid).1 t.id = some (confirmRow tok t)) := by
  have hfuel : slotRemainingFuel db sid = k := by
    rw [slotRemainingFuel_eq_some hs, hk]
    exact Int.toNat_natCast k
  have heq : confirmNextWaiter db sid = confirmLoop k db sid := by
    unfold confirmNextWaiter
    rw [hfuel]
  have hle : k ≤ (s.capacityMakeupAllowed - s.capacityMakeupUsed).toNat := by
    rw [hk]
    exact le_of_eq (Int.toNat_natCast k).symm
  obtain ⟨m1, m2, m3, m4, _, m6, _⟩ :=
    confirmLoop_master k db sid s hs hnd hdist hle
  rw [heq]
  exact ⟨by rw [m1]; exact min_eq_left hkN, m2, m3, m4, m6⟩

/-- Fixture slot for the C1 witness: 2 units of remaining capacity. -/
def slotFixtureC : ClassSlot :=
  { id := 0, classBand := ClassBand.beginner, courseLabel := "c",
    startTime := "10:00", capacityLimit := 10, capacityCurrent := 5,
    capacityMakeupAllowed := 2, capacityMakeupUsed := 0, waitlistCount := 3,
    lessonStartDateTime := 1000, lastNotifiedRequestId := none }

/-- Waiting request created at time 30 (id 1) for the C1 witness. -/
def requestFixtureC1 : Request :=
  { id := 1, childName := "a", declaredClassBand := ClassBand.beginner,
    absentDate := 0, toSlotId := 0, status := RequestStatus.waiting,
    contactEmail := some "a@x", confirmToken := none, declineToken := none,
    toSlotStartDateTime := 1000, createdAt := 30, absenceNoticeId := none }

/-- Waiting request created at time 10 (id 2) for the C1 witness. -/
def requestFixtureC2 : Request :=
  { id := 2, childName := "b", declaredClassBand := ClassBand.beginner,
    absentDate := 0, toSlotId := 0, status := RequestStatus.waiting,
    contactEmail := some "b@x", confirmToken := none, declineToken := none,
    toSlotStartDateTime := 1000, createdAt := 10, absenceNoticeId := none }

/-- Waiting request created at time 20 (id 3) for the C1 witness. -/
def requestFixtureC3 : Request :=
  { id := 3, childName := "c", declaredClassBand := ClassBand.beginner,
    absentDate := 0, toSlotId := 0, status := RequestStatus.waiting,
    contactEmail := some "c@x", confirmToken := none, declineToken := none,
    toSlotStartDateTime := 1000, createdAt := 20, absenceNoticeId := none }

/-- Fixture database for the C1 witness: slot 0 has 2 units of remaining
capacity, and three waiting requests created at times 30, 10, 20 (ids 1, 2, 3).
The engine must confirm ids 2 then 3 and leave id 1 waiting. -/
def dbFixtureC : Db :=
  { slots := [slotFixtureC],
    requests := [requestFixtureC1, requestFixtureC2, requestFixtureC3],
    notices := [], sentEmails := [], nextId := 50 }

/-- Witness for `confirmNextWaiter_fifo` on `dbFixtureC` with `k = 2`. -/
theorem confirmNextWaiter_fifo_witness :
    findSlot dbFixtureC 0 = some slotFixtureC
    ∧ (dbFixtureC.requests.map (fun r => r.id)).Nodup
    ∧ ((waitingFor dbFixtureC 0).map (fun r => r.createdAt)).Nodup
    ∧ 2 ≤ (waitingFor dbFixtureC 0).length
    ∧ (confirmNextWaiter dbFixtureC 0).2.length = 2
    ∧ List.Pairwise (fun a b => a.createdAt < b.createdAt)
        (confirmNextWaiter dbFixtureC 0).2 := by
  have h := confirmNextWaiter_fifo dbFixtureC 0 slotFixtureC 2
    (by decide) (by decide) (by decide) (by decide) (by decide)
  exact ⟨by decide, by decide, by decide, by decide, h.1, h.2.2.1⟩

theorem filter_map_untouched_mem {α : Type} (g : α → α) (p : α → Bool) :
    ∀ l : List α, (∀ x ∈ l, p (g x) = p x) → (∀ x ∈ l, p x = true → g x = x) →
      (l.map g).filter p = l.filter p := by
  intro l
  induction l with
  | nil => intro _ _; rfl
  | cons x xs ih =>
    intro h1 h2
    rw [List.map_cons, List.filter_cons, List.filter_cons]
    rw [h1 x (List.mem_cons_self _ _)]
    by_cases hx : p x
    · rw [h2 x (List.mem_cons_self _ _) hx]
      simp only [hx, if_true]
      rw [ih (fun y hy => h1 y (List.mem_cons_of_mem _ hy))
        (fun y hy => h2 y (List.mem_cons_of_mem _ hy))]
    · simp only [Bool.not_eq_true] at hx
      simp only [hx, Bool.false_eq_true, if_false]
      rw [ih (fun y hy => h1 y (List.mem_cons_of_mem _ hy))
        (fun y hy => h2 y (List.mem_cons_of_mem _ hy))]

theorem oldestWaiting_congr {dbA dbB : Db} {sid : Nat}
    (h : waitingFor dbA sid = waitingFor dbB sid) :
    oldestWaiting dbA sid = oldestWaiting dbB sid := by
  unfold oldestWaiting
  rw [h]

/-- C2: decline triggers promotion.  For a slot at full capacity
(`makeupAllowed - makeupUsed = 0`) with a nonempty waitlist, declining a
CONFIRMED request by its decline token sets that request to DECLINED, and —
synchronously, inside the same handler — the promotion engine confirms the
oldest waiter (handing it a fresh decline token), so `makeupUsed` returns to
its pre-decline value: capacity is fully used again. -/
theorem decline_triggers_promotion (db : Db) (token : Nat) (r : Request)
    (s : ClassSlot)
    (hq : db.requests.find? (fun x => x.declineToken == some token) = some r)
    (hst : r.status = RequestStatus.confirmed)
    (hs : findSlot db r.toSlotId = some s)
    (hfull : s.capacityMakeupAllowed - s.capacityMakeupUsed = 0)
    (hW : waitingFor db r.toSlotId ≠ [])
    (hnd : (db.requests.map (fun x => x.id)).Nodup) :
    (declineByToken db (some token)).2 = DeclineOutcome.declinedOk
    ∧ findRequest (declineByToken db (some token)).1 r.id =
        some { r with status := RequestStatus.declined }
    ∧ (∃ m, oldestWaiting db r.toSlotId = some m
        ∧ (∀ w ∈ waitingFor db r.toSlotId, m.createdAt ≤ w.createdAt)
        ∧ ∃ tok, findRequest (declineByToken db (some token)).1 m.id =
            some (confirmRow tok m))
    ∧ (∃ s2, findSlot (declineByToken db (some token)).1 r.toSlotId = some s2
        ∧ s2.capacityMakeupAllowed = s.capacityMakeupAllowed
        ∧ s2.capacityMakeupUsed = s.capacityMakeupUsed
        ∧ s2.waitlistCount = s.waitlistCount - 1) := by
  have hrmem : r ∈ db.requests := List.mem_of_find?_eq_some hq
  have hfindr : findRequest db r.id = some r := by
    unfold findRequest
    exact find_key_of_mem (fun x => x.id) hnd hrmem
  rw [decline_eq_ok hq hst]
  set db2 := updateSlot (updateRequest db r.id (fun x =>
      { x with status := RequestStatus.declined })) r.toSlotId
    (fun t => { t with capacityMakeupUsed := t.capacityMakeupUsed - 1 })
    with hdb2
  have hids2 : db2.requests.map (fun x => x.id) = db.requests.map (fun x => x.id) := by
    rw [hdb2, updateSlot_requests]
    exact updateRequest_ids db r.id _ (fun x => rfl)
  have hnd2 : (db2.requests.map (fun x => x.id)).Nodup := by
    rw [hids2]
    exact hnd
  have hWeq : waitingFor db2 r.toSlotId = waitingFor db r.toSlotId := by
    show ((db.requests.map (fun x => if x.id == r.id then
      { x with status := RequestStatus.declined } else x)).filter
        (isWaitingFor r.toSlotId)) = _
    refine filter_map_untouched_mem _ _ db.requests ?_ ?_
    · intro x hx
      by_cases hc : (x.id == r.id) = true
      · have hxr : x = r := by
          refine key_inj_of_nodup (fun t => t.id) hnd hx hrmem ?_
          simpa using hc
        subst hxr
        rw [if_pos hc]
        unfold isWaitingFor
        rw [hst]
        simp
      · rw [if_neg hc]
    · intro x hx hpx
      by_cases hc : (x.id == r.id) = true
      · have hxr : x = r := by
          refine key_inj_of_nodup (fun t => t.id) hnd hx hrmem ?_
          simpa using hc
        subst hxr
        unfold isWaitingFor at hpx
        rw [hst] at hpx
        simp at hpx
      · rw [if_neg hc]
  have hs2 : findSlot db2 r.toSlotId =
      some { s with capacityMakeupUsed := s.capacityMakeupUsed - 1 } := by
    rw [hdb2, findSlot_updateSlot]
    · show (findSlot db r.toSlotId).map _ = _
      rw [hs]
      have hb : (s.id == r.toSlotId) = true := by
        simp [findSlot_id hs]
      simp only [Option.map_some', hb, if_true]
    · intro t
      rfl
  obtain ⟨w, ws, hWc⟩ : ∃ w ws, waitingFor db r.toSlotId = w :: ws := by
    cases hq2 : waitingFor db r.toSlotId with
    | nil => exact absurd hq2 hW
    | cons a as => exact ⟨a, as, rfl⟩
  have ho : oldestWaiting db r.toSlotId = some (ws.foldl olderOf w) :=
    oldestWaiting_of_cons hWc
  set m := ws.foldl olderOf w with hm
  have ho2 : oldestWaiting db2 r.toSlotId = some m := by
    rw [oldestWaiting_congr hWeq]
    exact ho
  have hmW : m ∈ waitingFor db r.toSlotId := oldestWaiting_mem ho
  have hmmem : m ∈ db.requests := waitingFor_mem_requests hmW
  have hm2mem : m ∈ db2.requests := by
    exact waitingFor_mem_requests (hWeq ▸ hmW)
  have hmne : m.id ≠ r.id := by
    intro hc
    have : m = r := key_inj_of_nodup (fun t => t.id) hnd hmmem hrmem hc
    have := (waitingFor_mem_status hmW).1
    rw [‹m = r›, hst] at this
    cases this
  have hfuel2 : slotRemainingFuel db2 r.toSlotId = 1 := by
    rw [slotRemainingFuel_eq_some hs2]
    simp only []
    omega
  have hrem : ¬({ s with capacityMakeupUsed :=
        s.capacityMakeupUsed - 1 }.capacityMakeupAllowed -
      { s with capacityMakeupUsed :=
        s.capacityMakeupUsed - 1 }.capacityMakeupUsed < 1) := by
    show ¬(s.capacityMakeupAllowed - (s.capacityMakeupUsed - 1) < 1)
    omega
  have hloop : confirmNextWaiter db2 r.toSlotId =
      (promoteRequest db2
        { s with capacityMakeupUsed := s.capacityMakeupUsed - 1 } m, [m]) := by
    unfold confirmNextWaiter
    rw [hfuel2, confirmLoop_succ]
    simp only [hs2, if_neg hrem, ho2]
    rfl
  have hfind2r : findRequest db2 r.id =
      some { r with status := RequestStatus.declined } := by
    rw [hdb2]
    show findRequest (updateRequest db r.id (fun x =>
      { x with status := RequestStatus.declined })) r.id = _
    rw [findRequest_updateRequest]
    case hf => intro x; rfl
    rw [hfindr]
    simp
  have hfind2m : findRequest db2 m.id = some m := by
    unfold findRequest
    exact find_key_of_mem (fun x => x.id) hnd2 hm2mem
  refine ⟨rfl, ?_, ⟨m, ho, oldestWaiting_min ho, db2.nextId, ?_⟩, ?_⟩
  · show findRequest (confirmNextWaiter db2 r.toSlotId).1 r.id = _
    rw [hloop]
    show findRequest (promoteRequest db2
      { s with capacityMakeupUsed := s.capacityMakeupUsed - 1 } m) r.id = _
    rw [findRequest_promoteRequest, hfind2r]
    have hb : (({ r with status := RequestStatus.declined } : Request).id ==
        m.id) = false := by
      show (r.id == m.id) = false
      simp only [beq_eq_false_iff_ne, ne_eq]
      intro hc
      exact hmne hc.symm
    simp only [Option.map_some', hb, Bool.false_eq_true, if_false]
  · show findRequest (confirmNextWaiter db2 r.toSlotId).1 m.id = _
    rw [hloop]
    show findRequest (promoteRequest db2
      { s with capacityMakeupUsed := s.capacityMakeupUsed - 1 } m) m.id = _
    rw [findRequest_promoteRequest, hfind2m]
    simp [confirmRow]
  · show ∃ s2, findSlot (confirmNextWaiter db2 r.toSlotId).1 r.toSlotId = some s2
        ∧ s2.capacityMakeupAllowed = s.capacityMakeupAllowed
        ∧ s2.capacityMakeupUsed = s.capacityMakeupUsed
        ∧ s2.waitlistCount = s.waitlistCount - 1
    rw [hloop]
    refine ⟨consumeRow { s with capacityMakeupUsed := s.capacityMakeupUsed - 1 },
      ?_, ?_, ?_, ?_⟩
    · exact findSlot_promoteRequest db2 _ m r.toSlotId hs2
    · rfl
    · show (s.capacityMakeupUsed - 1) + 1 = s.capacityMakeupUsed
      omega
    · rfl

/-- Fixture slot for the C2 witness: makeup capacity fully used (1 of 1),
one child on the waitlist. -/
def slotFixtureD : ClassSlot :=
  { id := 11, classBand := ClassBand.beginner, courseLabel := "d",
    startTime := "11:00", capacityLimit := 10, capacityCurrent := 6,
    capacityMakeupAllowed := 1, capacityMakeupUsed := 1, waitlistCount := 1,
    lessonStartDateTime := 5000, lastNotifiedRequestId := none }

/-- Fixture request for the C2 witness: CONFIRMED holder of the makeup seat,
carrying decline token 77. -/
def requestFixtureD1 : Request :=
  { id := 21, childName := "p", declaredClassBand := ClassBand.beginner,
    absentDate := 0, toSlotId := 11, status := RequestStatus.confirmed,
    contactEmail := none, confirmToken := none, declineToken := some 77,
    toSlotStartDateTime := 5000, createdAt := 5, absenceNoticeId := none }

/-- Fixture request for the C2 witness: the WAITING child queued behind the
confirmed holder on the same slot. -/
def requestFixtureD2 : Request :=
  { id := 22, childName := "q", declaredClassBand := ClassBand.beginner,
    absentDate := 0, toSlotId := 11, status := RequestStatus.waiting,
    contactEmail := none, confirmToken := none, declineToken := none,
    toSlotStartDateTime := 5000, createdAt := 9, absenceNoticeId := none }

/-- Fixture database for the C2 witness. -/
def dbFixtureD : Db :=
  { slots := [slotFixtureD], requests := [requestFixtureD1, requestFixtureD2],
    notices := [], sentEmails := [], nextId := 30 }

/-- C2 witness: declining token 77 on the full fixture slot succeeds, marks
the holder declined, promotes the oldest waiter to CONFIRMED with a fresh
token, and leaves the slot's used-counter back at its original value with the
waitlist count decremented. -/
theorem decline_triggers_promotion_witness :
    (declineByToken dbFixtureD (some 77)).2 = DeclineOutcome.declinedOk
    ∧ findRequest (declineByToken dbFixtureD (some 77)).1 requestFixtureD1.id =
        some { requestFixtureD1 with status := RequestStatus.declined }
    ∧ (∃ m, oldestWaiting dbFixtureD requestFixtureD1.toSlotId = some m
        ∧ (∀ w ∈ waitingFor dbFixtureD requestFixtureD1.toSlotId,
            m.createdAt ≤ w.createdAt)
        ∧ ∃ tok, findRequest (declineByToken dbFixtureD (some 77)).1 m.id =
            some (confirmRow tok m))
    ∧ (∃ s2, findSlot (declineByToken dbFixtureD (some 77)).1
          requestFixtureD1.toSlotId = some s2
        ∧ s2.capacityMakeupAllowed = slotFixtureD.capacityMakeupAllowed
        ∧ s2.capacityMakeupUsed = slotFixtureD.capacityMakeupUsed
        ∧ s2.waitlistCount = slotFixtureD.waitlistCount - 1) :=
  decline_triggers_promotion dbFixtureD 77 requestFixtureD1 slotFixtureD
    (by decide) (by decide) (by decide) (by decide) (by decide) (by decide)

/-- C3: `adjustCapacity` is a partial update followed by a conditional inline
promotion.  (1) The refetched slot row after the update step has exactly the
provided fields replaced (`getD`: provided value, else the old one) and every
other field unchanged.  (2) The whole handler equals: run the promotion engine
on the updated state if and only if remaining transitioned from `<= 0` (before)
to `>= 1` (after); either way the reported outcome is `updated`.  (3) When the
transition condition fails, the handler touches no request row and sends no
email: only the slot row changes. -/
theorem updateSlotCapacity_semantics (db : Db) (sid : Nat)
    (cc ca cu : Option Int) (s : ClassSlot)
    (hs : findSlot db sid = some s) :
    (∃ s2, findSlot (updateSlot db sid (fun t => { t with
          capacityCurrent := cc.getD t.capacityCurrent,
          capacityMakeupAllowed := ca.getD t.capacityMakeupAllowed,
          capacityMakeupUsed := cu.getD t.capacityMakeupUsed })) sid = some s2
        ∧ s2.capacityCurrent = cc.getD s.capacityCurrent
        ∧ s2.capacityMakeupAllowed = ca.getD s.capacityMakeupAllowed
        ∧ s2.capacityMakeupUsed = cu.getD s.capacityMakeupUsed
        ∧ s2.id = s.id
        ∧ s2.classBand = s.classBand
        ∧ s2.courseLabel = s.courseLabel
        ∧ s2.startTime = s.startTime
        ∧ s2.capacityLimit = s.capacityLimit
        ∧ s2.waitlistCount = s.waitlistCount
        ∧ s2.lessonStartDateTime = s.lessonStartDateTime
        ∧ s2.lastNotifiedRequestId = s.lastNotifiedRequestId)
    ∧ updateSlotCapacity db sid cc ca cu =
        (if s.capacityMakeupAllowed - s.capacityMakeupUsed ≤ 0 ∧
            1 ≤ ca.getD s.capacityMakeupAllowed - cu.getD s.capacityMakeupUsed
         then ((confirmNextWaiter (updateSlot db sid (fun t => { t with
              capacityCurrent := cc.getD t.capacityCurrent,
              capacityMakeupAllowed := ca.getD t.capacityMakeupAllowed,
              capacityMakeupUsed := cu.getD t.capacityMakeupUsed })) sid).1,
            UpdateCapacityOutcome.updated)
         else (updateSlot db sid (fun t => { t with
              capacityCurrent := cc.getD t.capacityCurrent,
              capacityMakeupAllowed := ca.getD t.capacityMakeupAllowed,
              capacityMakeupUsed := cu.getD t.capacityMakeupUsed }),
            UpdateCapacityOutcome.updated))
    ∧ (¬(s.capacityMakeupAllowed - s.capacityMakeupUsed ≤ 0 ∧
          1 ≤ ca.getD s.capacityMakeupAllowed - cu.getD s.capacityMakeupUsed) →
        (updateSlotCapacity db sid cc ca cu).1.requests = db.requests
        ∧ (updateSlotCapacity db sid cc ca cu).1.sentEmails = db.sentEmails) := by
  refine ⟨⟨capacityRow cc ca cu s, findSlot_updateCapacity hs,
    rfl, rfl, rfl, rfl, rfl, rfl, rfl, rfl, rfl, rfl, rfl⟩, ?_, ?_⟩
  · by_cases hcond : s.capacityMakeupAllowed - s.capacityMakeupUsed ≤ 0 ∧
        1 ≤ ca.getD s.capacityMakeupAllowed - cu.getD s.capacityMakeupUsed
    · rw [if_pos hcond, updateCapacity_eq_promote hs hcond]
    · rw [if_neg hcond, updateCapacity_eq_noPromote hs hcond]
  · intro hcond
    rw [updateCapacity_eq_noPromote hs hcond]
    exact ⟨rfl, rfl⟩

/-- C3 witness: on the fixture database, setting `capacityMakeupUsed` back to
0 on the full slot (remaining 0 before, 1 after) yields the partial-update row
and takes the promotion branch of the handler equation. -/
theorem updateSlotCapacity_semantics_witness :
    (∃ s2, findSlot (updateSlot dbFixtureD 11 (fun t => { t with
          capacityCurrent := (none : Option Int).getD t.capacityCurrent,
          capacityMakeupAllowed := (none : Option Int).getD t.capacityMakeupAllowed,
          capacityMakeupUsed := (some (0 : Int)).getD t.capacityMakeupUsed })) 11
          = some s2
        ∧ s2.capacityCurrent = (none : Option Int).getD slotFixtureD.capacityCurrent
        ∧ s2.capacityMakeupAllowed =
            (none : Option Int).getD slotFixtureD.capacityMakeupAllowed
        ∧ s2.capacityMakeupUsed =
            (some (0 : Int)).getD slotFixtureD.capacityMakeupUsed
        ∧ s2.id = slotFixtureD.id
        ∧ s2.classBand = slotFixtureD.classBand
        ∧ s2.courseLabel = slotFixtureD.courseLabel
        ∧ s2.startTime = slotFixtureD.startTime
        ∧ s2.capacityLimit = slotFixtureD.capacityLimit
        ∧ s2.waitlistCount = slotFixtureD.waitlistCount
        ∧ s2.lessonStartDateTime = slotFixtureD.lessonStartDateTime
        ∧ s2.lastNotifiedRequestId = slotFixtureD.lastNotifiedRequestId)
    ∧ updateSlotCapacity dbFixtureD 11 none none (some 0) =
        (if slotFixtureD.capacityMakeupAllowed -
              slotFixtureD.capacityMakeupUsed ≤ 0 ∧
            1 ≤ (none : Option Int).getD slotFixtureD.capacityMakeupAllowed -
              (some (0 : Int)).getD slotFixtureD.capacityMakeupUsed
         then ((confirmNextWaiter (updateSlot dbFixtureD 11 (fun t => { t with
              capacityCurrent := (none : Option Int).getD t.capacityCurrent,
              capacityMakeupAllowed :=
                (none : Option Int).getD t.capacityMakeupAllowed,
              capacityMakeupUsed :=
                (some (0 : Int)).getD t.capacityMakeupUsed })) 11).1,
            UpdateCapacityOutcome.updated)
         else (updateSlot dbFixtureD 11 (fun t => { t with
              capacityCurrent := (none : Option Int).getD t.capacityCurrent,
              capacityMakeupAllowed :=
                (none : Option Int).getD t.capacityMakeupAllowed,
              capacityMakeupUsed :=
                (some (0 : Int)).getD t.capacityMakeupUsed }),
            UpdateCapacityOutcome.updated))
    ∧ (¬(slotFixtureD.capacityMakeupAllowed -
            slotFixtureD.capacityMakeupUsed ≤ 0 ∧
          1 ≤ (none : Option Int).getD slotFixtureD.capacityMakeupAllowed -
            (some (0 : Int)).getD slotFixtureD.capacityMakeupUsed) →
        (updateSlotCapacity dbFixtureD 11 none none (some 0)).1.requests =
            dbFixtureD.requests
        ∧ (updateSlotCapacity dbFixtureD 11 none none (some 0)).1.sentEmails =
            dbFixtureD.sentEmails) :=
  updateSlotCapacity_semantics dbFixtureD 11 none none (some 0) slotFixtureD
    (by decide)

/-- C8: decline error handling.  Token absent: terminal `invalidToken`, state
unchanged.  No request carries the token: `notFound`, state unchanged.  The
matched request is not CONFIRMED: `alreadyProcessed`, state unchanged.  Only a
matching CONFIRMED request mutates state, and then the handler performs exactly
the documented mutation: mark the request DECLINED, decrement the slot's
`capacityMakeupUsed`, and run the promotion engine on the result. -/
theorem declineByToken_guards (db : Db) (token? : Option Nat) :
    (token? = none → declineByToken db token? = (db, DeclineOutcome.invalidToken))
    ∧ (∀ token, token? = some token →
        db.requests.find? (fun x => x.declineToken == some token) = none →
        declineByToken db token? = (db, DeclineOutcome.notFound))
    ∧ (∀ token r, token? = some token →
        db.requests.find? (fun x => x.declineToken == some token) = some r →
        r.status ≠ RequestStatus.confirmed →
        declineByToken db token? = (db, DeclineOutcome.alreadyProcessed))
    ∧ (∀ token r, token? = some token →
        db.requests.find? (fun x => x.declineToken == some token) = some r →
        r.status = RequestStatus.confirmed →
        declineByToken db token? =
          ((confirmNextWaiter
              (updateSlot
                (updateRequest db r.id (fun x =>
                  { x with status := RequestStatus.declined }))
                r.toSlotId
                (fun t => { t with capacityMakeupUsed := t.capacityMakeupUsed - 1 }))
              r.toSlotId).1,
           DeclineOutcome.declinedOk)) := by
  refine ⟨?_, ?_, ?_, ?_⟩
  · intro h
    subst h
    exact decline_eq_invalid
  · intro token h hfind
    subst h
    exact decline_eq_notFound hfind
  · intro token r h hfind hst
    subst h
    exact decline_eq_alreadyProcessed hfind hst
  · intro token r h hfind hst
    subst h
    exact decline_eq_ok hfind hst

/-- Fixture request for the C8 witness: an already-DECLINED request that still
carries decline token 88. -/
def requestFixtureE : Request :=
  { id := 25, childName := "r", declaredClassBand := ClassBand.beginner,
    absentDate := 0, toSlotId := 11, status := RequestStatus.declined,
    contactEmail := none, confirmToken := none, declineToken := some 88,
    toSlotStartDateTime := 5000, createdAt := 4, absenceNoticeId := none }

/-- Fixture database for the C8 witness. -/
def dbFixtureE : Db :=
  { slots := [slotFixtureD], requests := [requestFixtureE],
    notices := [], sentEmails := [], nextId := 40 }

/-- C8 witness: a missing token, an unmatched token, and a token on an
already-declined request each fail with the documented outcome and leave the
database exactly as it was. -/
theorem declineByToken_guards_witness :
    declineByToken dbFixtureD none = (dbFixtureD, DeclineOutcome.invalidToken)
    ∧ declineByToken dbFixtureD (some 99) = (dbFixtureD, DeclineOutcome.notFound)
    ∧ declineByToken dbFixtureE (some 88) =
        (dbFixtureE, DeclineOutcome.alreadyProcessed) :=
  ⟨(declineByToken_guards dbFixtureD none).1 rfl,
   (declineByToken_guards dbFixtureD (some 99)).2.1 99 rfl (by decide),
   (declineByToken_guards dbFixtureE (some 88)).2.2.1 88 requestFixtureE rfl
     (by decide) (by decide)⟩

end Furikae
